import Mathlib

/-!
# Verification of the py-traffic-sim road-topology core

Shallow embedding of `src/road/grid.py` and `src/road/network.py`:
the tile grid with neighbor-driven shape classification, the travel
graph (intersections, intra-intersection turn edges, cross-tile
boundary edges), and the composition root `RoadNetwork`.

The repository's `constants` module (tile dimensions and the
`Direction` / `RoadNodeType` / `TileType` enumerations) is not part of
the provided sources; those definitions are modelled from the spec and
are marked as such in their doc comments.
-/

set_option maxHeartbeats 1600000

/-- Modelled from the spec: `Direction` enumeration from the missing
`constants` module — one of UP, RIGHT, DOWN, LEFT. -/
inductive Direction
  | UP
  | RIGHT
  | DOWN
  | LEFT
deriving DecidableEq, Repr, Fintype

/-- Modelled from the spec: `Direction.opposite()` from the missing
`constants` module — UP↔DOWN, RIGHT↔LEFT. -/
def Direction.opposite : Direction → Direction
  | .UP => .DOWN
  | .DOWN => .UP
  | .RIGHT => .LEFT
  | .LEFT => .RIGHT

/-- Modelled from the spec: `RoadNodeType` enumeration from the missing
`constants` module — ENTER or EXIT. -/
inductive RoadNodeType
  | ENTER
  | EXIT
deriving DecidableEq, Repr, Fintype

/-- Modelled from the spec: `TileType` enumeration from the missing
`constants` module — EMPTY, ALONE, and one shape per nonempty subset of
the four directions, named by its active directions. -/
inductive TileType
  | EMPTY
  | ALONE
  | UP
  | RIGHT
  | DOWN
  | LEFT
  | UP_RIGHT
  | RIGHT_DOWN
  | DOWN_LEFT
  | UP_LEFT
  | UP_DOWN
  | RIGHT_LEFT
  | UP_RIGHT_DOWN
  | RIGHT_DOWN_LEFT
  | UP_DOWN_LEFT
  | UP_RIGHT_LEFT
  | UP_RIGHT_DOWN_LEFT
deriving DecidableEq, Repr, Fintype

/-- Modelled from the spec: `TileType.segment_directions()` from the
missing `constants` module — the fixed ordered set of active directions
of a shape ("Each non-EMPTY shape has a fixed ordered set of active
directions"; EMPTY and ALONE have none). -/
def TileType.segment_directions : TileType → List Direction
  | .EMPTY => []
  | .ALONE => []
  | .UP => [.UP]
  | .RIGHT => [.RIGHT]
  | .DOWN => [.DOWN]
  | .LEFT => [.LEFT]
  | .UP_RIGHT => [.UP, .RIGHT]
  | .RIGHT_DOWN => [.RIGHT, .DOWN]
  | .DOWN_LEFT => [.DOWN, .LEFT]
  | .UP_LEFT => [.UP, .LEFT]
  | .UP_DOWN => [.UP, .DOWN]
  | .RIGHT_LEFT => [.RIGHT, .LEFT]
  | .UP_RIGHT_DOWN => [.UP, .RIGHT, .DOWN]
  | .RIGHT_DOWN_LEFT => [.RIGHT, .DOWN, .LEFT]
  | .UP_DOWN_LEFT => [.UP, .DOWN, .LEFT]
  | .UP_RIGHT_LEFT => [.UP, .RIGHT, .LEFT]
  | .UP_RIGHT_DOWN_LEFT => [.UP, .RIGHT, .DOWN, .LEFT]

/-- `TileGrid` (grid.py lines 20-26): a 2d grid of road tiles with
dimensions `w`×`h`.  The Python list-of-lists is embedded as a total
function on integer indices; all grid reads/writes performed by the
embedded operations are bounds-guarded exactly as in the source, and the
in-bounds fragment (the one the claims quantify over) coincides with the
list semantics.  The raw unguarded Python read of `tile_type` is
embedded separately over lists as `tile_type_py` below. -/
structure TileGrid where
  w : Nat
  h : Nat
  grid : Int → Int → TileType

/-- `TileGrid.__init__` (grid.py lines 23-26): every cell EMPTY. -/
def TileGrid.init (w h : Nat) : TileGrid :=
  ⟨w, h, fun _ _ => .EMPTY⟩

/-- The Python in-place assignment `self.grid[r][c] = t`. -/
def TileGrid.setTile (g : TileGrid) (r c : Int) (t : TileType) : TileGrid :=
  { g with grid := fun r' c' => if r' = r ∧ c' = c then t else g.grid r' c' }

/-- `TileGrid.get_neighbors` (grid.py lines 110-126): mapping from
direction to (coordinate, tile type) for every adjacent non-EMPTY tile,
built in UP, RIGHT, DOWN, LEFT insertion order. -/
def TileGrid.get_neighbors (g : TileGrid) (r c : Int) :
    List (Direction × (Int × Int) × TileType) :=
  (if r - 1 ≥ 0 ∧ g.grid (r-1) c ≠ .EMPTY
    then [(Direction.UP, ((r-1, c), g.grid (r-1) c))] else [])
  ++ (if c + 1 < (g.w : Int) ∧ g.grid r (c+1) ≠ .EMPTY
    then [(Direction.RIGHT, ((r, c+1), g.grid r (c+1)))] else [])
  ++ (if r + 1 < (g.h : Int) ∧ g.grid (r+1) c ≠ .EMPTY
    then [(Direction.DOWN, ((r+1, c), g.grid (r+1) c))] else [])
  ++ (if c - 1 ≥ 0 ∧ g.grid r (c-1) ≠ .EMPTY
    then [(Direction.LEFT, ((r, c-1), g.grid r (c-1)))] else [])

/-- The classification cascade of `TileGrid.evaluate_tile_type`
(grid.py lines 66-108): given the neighbor count and the four presence
flags of the neighbor mapping, produce the tile type; `none` is the
implicit Python `return None` fall-through. -/
def classifyCount (count : Nat) (up right down left : Bool) : Option TileType :=
  if count = 0 then some .ALONE
  else if count = 1 then
    if up then some .UP
    else if right then some .RIGHT
    else if down then some .DOWN
    else if left then some .LEFT
    else none
  else if count = 2 then
    if up && right then some .UP_RIGHT
    else if right && down then some .RIGHT_DOWN
    else if down && left then some .DOWN_LEFT
    else if up && left then some .UP_LEFT
    else if up && down then some .UP_DOWN
    else if right && left then some .RIGHT_LEFT
    else none
  else if count = 3 then
    if up && right && down then some .UP_RIGHT_DOWN
    else if right && down && left then some .RIGHT_DOWN_LEFT
    else if up && down && left then some .UP_DOWN_LEFT
    else if up && right && left then some .UP_RIGHT_LEFT
    else none
  else if count = 4 then some .UP_RIGHT_DOWN_LEFT
  else none

/-- `TileGrid.evaluate_tile_type` (grid.py lines 57-108). -/
def TileGrid.evaluate_tile_type (g : TileGrid) (r c : Int) (modified : Bool) :
    Option TileType :=
  if modified = false ∧ g.grid r c = .EMPTY then some .EMPTY
  else
    let nbrs := g.get_neighbors r c
    classifyCount nbrs.length
      (nbrs.lookup Direction.UP).isSome
      (nbrs.lookup Direction.RIGHT).isSome
      (nbrs.lookup Direction.DOWN).isSome
      (nbrs.lookup Direction.LEFT).isSome

/-- One conditional neighbor re-evaluation of `add_tile` (grid.py lines
46-53): when the bounds guard `P` holds, re-evaluate the tile at `q`
(not `modified`) and write the result back; `none` models the Python
exception if the evaluation fell through to `None`. -/
def reevalStep (P : Prop) [Decidable P] (g : TileGrid) (q : Int × Int) :
    Option TileGrid :=
  if P then (g.evaluate_tile_type q.1 q.2 false).map fun t => g.setTile q.1 q.2 t
  else some g

/-- `TileGrid.add_tile` (grid.py lines 32-55).  `none` models an
uncaught Python exception (`evaluate_tile_type` falling through to
`None`; proven unreachable below); `some (b, g')` models returning `b`
with the grid mutated to `g'`.  The four neighbor re-evaluations happen
sequentially on the updated grid, in source order UP, RIGHT, DOWN,
LEFT, each guarded by the source's bounds check. -/
def TileGrid.add_tile (g : TileGrid) (r c : Int)
    (restrict_to_neighbors : Bool) : Option (Bool × TileGrid) :=
  if g.grid r c ≠ .EMPTY then some (false, g)
  else if restrict_to_neighbors ∧ g.get_neighbors r c = [] then some (false, g)
  else
    (g.evaluate_tile_type r c true).bind fun t0 =>
    (reevalStep (r - 1 ≥ 0) (g.setTile r c t0) (r-1, c)).bind fun g1 =>
    (reevalStep (c + 1 < (g.w : Int)) g1 (r, c+1)).bind fun g2 =>
    (reevalStep (r + 1 < (g.h : Int)) g2 (r+1, c)).bind fun g3 =>
    (reevalStep (c - 1 ≥ 0) g3 (r, c-1)).map fun g4 => (true, g4)

/-! ## Neighbor masks and the classification cascade -/

/-- The neighbor coordinate one step in a direction (UP = row-1, etc.,
as read off the index arithmetic of `get_neighbors`). -/
def nbrIdx (p : Int × Int) : Direction → Int × Int
  | .UP => (p.1 - 1, p.2)
  | .RIGHT => (p.1, p.2 + 1)
  | .DOWN => (p.1 + 1, p.2)
  | .LEFT => (p.1, p.2 - 1)

/-- The four guard conditions of `get_neighbors`, one per direction. -/
def TileGrid.maskB (g : TileGrid) (r c : Int) : Direction → Bool
  | .UP => decide (r - 1 ≥ 0 ∧ g.grid (r-1) c ≠ .EMPTY)
  | .RIGHT => decide (c + 1 < (g.w : Int) ∧ g.grid r (c+1) ≠ .EMPTY)
  | .DOWN => decide (r + 1 < (g.h : Int) ∧ g.grid (r+1) c ≠ .EMPTY)
  | .LEFT => decide (c - 1 ≥ 0 ∧ g.grid r (c-1) ≠ .EMPTY)

/-- Number of set flags among the four direction flags. -/
def boolCount (up right down left : Bool) : Nat :=
  (cond up 1 0) + (cond right 1 0) + (cond down 1 0) + (cond left 1 0)

/-- Direction-indexed view of the four flags. -/
def dirBool (up right down left : Bool) : Direction → Bool
  | .UP => up
  | .RIGHT => right
  | .DOWN => down
  | .LEFT => left

theorem get_neighbors_lookup (g : TileGrid) (r c : Int) (d : Direction) :
    (g.get_neighbors r c).lookup d =
      if g.maskB r c d then
        some (nbrIdx (r, c) d, g.grid (nbrIdx (r, c) d).1 (nbrIdx (r, c) d).2)
      else none := by
  cases d <;>
    · unfold TileGrid.get_neighbors TileGrid.maskB nbrIdx
      split_ifs <;> simp_all [List.lookup] <;> rfl

theorem get_neighbors_length (g : TileGrid) (r c : Int) :
    (g.get_neighbors r c).length =
      boolCount (g.maskB r c .UP) (g.maskB r c .RIGHT)
        (g.maskB r c .DOWN) (g.maskB r c .LEFT) := by
  unfold TileGrid.get_neighbors TileGrid.maskB boolCount
  simp only [List.length_append,
    apply_ite (List.length (α := Direction × (Int × Int) × TileType)),
    List.length_singleton, List.length_nil, Bool.cond_decide]

theorem mem_get_neighbors (g : TileGrid) (r c : Int)
    (e : Direction × (Int × Int) × TileType) :
    e ∈ g.get_neighbors r c ↔
      g.maskB r c e.1 = true ∧
        e.2 = (nbrIdx (r, c) e.1,
          g.grid (nbrIdx (r, c) e.1).1 (nbrIdx (r, c) e.1).2) := by
  obtain ⟨d, rest⟩ := e
  cases d <;>
    · unfold TileGrid.get_neighbors TileGrid.maskB nbrIdx
      split_ifs <;> simp_all

theorem get_neighbors_keys_pairwise (g : TileGrid) (r c : Int) :
    (g.get_neighbors r c).Pairwise (fun a b => a.1 ≠ b.1) := by
  unfold TileGrid.get_neighbors
  split_ifs <;> simp_all [List.Pairwise]

/-- Totality and shape-set correctness of the classification cascade,
settled by exhaustive evaluation over the 16 masks. -/
theorem classifyCount_spec (u rt dn lt : Bool) :
    ∃ t : TileType,
      classifyCount (boolCount u rt dn lt) u rt dn lt = some t ∧
      t ≠ .EMPTY ∧
      (∀ d, d ∈ t.segment_directions ↔ dirBool u rt dn lt d = true) ∧
      t.segment_directions.length = boolCount u rt dn lt ∧
      t.segment_directions.Nodup := by
  revert u rt dn lt; decide

theorem evaluate_eq_classify (g : TileGrid) (r c : Int) (m : Bool)
    (h : m = true ∨ g.grid r c ≠ .EMPTY) :
    g.evaluate_tile_type r c m =
      classifyCount
        (boolCount (g.maskB r c .UP) (g.maskB r c .RIGHT)
          (g.maskB r c .DOWN) (g.maskB r c .LEFT))
        (g.maskB r c .UP) (g.maskB r c .RIGHT)
        (g.maskB r c .DOWN) (g.maskB r c .LEFT) := by
  have hg : ¬(m = false ∧ g.grid r c = .EMPTY) := by
    rcases h with h | h
    · simp [h]
    · intro hh; exact h hh.2
  unfold TileGrid.evaluate_tile_type
  rw [if_neg hg]
  simp only [get_neighbors_length, get_neighbors_lookup]
  rcases hu : g.maskB r c .UP <;> rcases hr : g.maskB r c .RIGHT <;>
    rcases hd : g.maskB r c .DOWN <;> rcases hl : g.maskB r c .LEFT <;>
      simp [hu, hr, hd, hl]

/-- Evaluating a still-EMPTY, unmodified cell returns EMPTY. -/
theorem evaluate_empty (g : TileGrid) (r c : Int) (h : g.grid r c = .EMPTY) :
    g.evaluate_tile_type r c false = some .EMPTY := by
  unfold TileGrid.evaluate_tile_type
  rw [if_pos ⟨rfl, h⟩]

/-- Forced or non-EMPTY evaluation always classifies successfully, to a
non-EMPTY shape whose active directions are exactly the neighbor mask. -/
theorem evaluate_spec (g : TileGrid) (r c : Int) (m : Bool)
    (h : m = true ∨ g.grid r c ≠ .EMPTY) :
    ∃ t : TileType,
      g.evaluate_tile_type r c m = some t ∧
      t ≠ .EMPTY ∧
      (∀ d, d ∈ t.segment_directions ↔ g.maskB r c d = true) ∧
      t.segment_directions.length =
        boolCount (g.maskB r c .UP) (g.maskB r c .RIGHT)
          (g.maskB r c .DOWN) (g.maskB r c .LEFT) ∧
      t.segment_directions.Nodup := by
  obtain ⟨t, h1, h2, h3, h4, h5⟩ :=
    classifyCount_spec (g.maskB r c .UP) (g.maskB r c .RIGHT)
      (g.maskB r c .DOWN) (g.maskB r c .LEFT)
  refine ⟨t, ?_, h2, ?_, h4, h5⟩
  · rw [evaluate_eq_classify g r c m h, h1]
  · intro d; rw [h3 d]; cases d <;> rfl

/-- C4: the tile-shape classification is total over all 16 subsets of
the 4 directions and never yields an absent shape; the empty mask gives
ALONE (distinct from EMPTY); a size-k mask gives a shape whose active
directions are exactly that mask (hence exactly k of them); and the
classification is injective on masks. -/
theorem claim_C4 (up right down left : Bool) :
    ∃ t : TileType,
      classifyCount (boolCount up right down left) up right down left = some t ∧
      t ≠ .EMPTY ∧
      (boolCount up right down left = 0 → t = .ALONE) ∧
      t.segment_directions.length = boolCount up right down left ∧
      (∀ d, d ∈ t.segment_directions ↔ dirBool up right down left d = true) ∧
      (∀ u2 r2 d2 l2 : Bool,
        classifyCount (boolCount u2 r2 d2 l2) u2 r2 d2 l2 = some t →
        u2 = up ∧ r2 = right ∧ d2 = down ∧ l2 = left) := by
  revert up right down left; decide

theorem claim_C4_witness :
    ∃ t : TileType,
      classifyCount (boolCount false false false false) false false false false
        = some t ∧
      t ≠ .EMPTY ∧
      (boolCount false false false false = 0 → t = .ALONE) ∧
      t.segment_directions.length = boolCount false false false false ∧
      (∀ d, d ∈ t.segment_directions ↔ dirBool false false false false d = true) ∧
      (∀ u2 r2 d2 l2 : Bool,
        classifyCount (boolCount u2 r2 d2 l2) u2 r2 d2 l2 = some t →
        u2 = false ∧ r2 = false ∧ d2 = false ∧ l2 = false) :=
  claim_C4 false false false false

/-! ## World-coordinate conversion (grid.py lines 129-143) -/

/-- `grid_index_to_world_coords` (grid.py lines 129-136).  Modelled from
the spec for the constants: `TILE_WIDTH` (`tw`) and `TILE_HEIGHT` (`th`)
live in the missing `constants` module ("fixed tile width/height"), so
they are taken as parameters here; Python `//` is floor division
(`Int.fdiv`). -/
def grid_index_to_world_coords (tw th : Int) (r c : Int) (center : Bool) :
    Int × Int :=
  if center then (c * tw + tw.fdiv 2, r * th + th.fdiv 2)
  else (c * tw, r * th)

/-- `world_coords_to_grid_index` (grid.py lines 139-143). -/
def world_coords_to_grid_index (tw th : Int) (x y : Int) : Int × Int :=
  (y.fdiv th, x.fdiv tw)

/-- C10: converting a valid grid index to world coordinates and back
recovers the index, for both the corner and the center conversion. -/
theorem claim_C10 (tw th h w r c : Int)
    (htw : 0 < tw) (hth : 0 < th)
    (_hr0 : 0 ≤ r) (_hrh : r < h) (_hc0 : 0 ≤ c) (_hcw : c < w) :
    world_coords_to_grid_index tw th
        (grid_index_to_world_coords tw th r c false).1
        (grid_index_to_world_coords tw th r c false).2 = (r, c) ∧
      world_coords_to_grid_index tw th
        (grid_index_to_world_coords tw th r c true).1
        (grid_index_to_world_coords tw th r c true).2 = (r, c) := by
  unfold world_coords_to_grid_index grid_index_to_world_coords
  simp only [if_pos, if_neg, Bool.false_eq_true, not_false_iff, ite_false,
    ite_true]
  constructor
  · rw [Int.mul_fdiv_cancel r hth.ne', Int.mul_fdiv_cancel c htw.ne']
  · have hth2 : th.fdiv 2 = th / 2 := Int.fdiv_eq_ediv _ (by omega)
    have htw2 : tw.fdiv 2 = tw / 2 := Int.fdiv_eq_ediv _ (by omega)
    have h1 : (r * th + th.fdiv 2).fdiv th = r := by
      rw [hth2, Int.fdiv_eq_ediv _ hth.le, add_comm, Int.add_mul_ediv_right _ _ hth.ne',
        Int.ediv_eq_zero_of_lt (by omega) (by omega), zero_add]
    have h2 : (c * tw + tw.fdiv 2).fdiv tw = c := by
      rw [htw2, Int.fdiv_eq_ediv _ htw.le, add_comm, Int.add_mul_ediv_right _ _ htw.ne',
        Int.ediv_eq_zero_of_lt (by omega) (by omega), zero_add]
    rw [h1, h2]

theorem claim_C10_witness :
    world_coords_to_grid_index 32 32
        (grid_index_to_world_coords 32 32 1 0 false).1
        (grid_index_to_world_coords 32 32 1 0 false).2 = (1, 0) ∧
      world_coords_to_grid_index 32 32
        (grid_index_to_world_coords 32 32 1 0 true).1
        (grid_index_to_world_coords 32 32 1 0 true).2 = (1, 0) :=
  claim_C10 32 32 2 2 1 0 (by decide) (by decide) (by decide) (by decide)
    (by decide) (by decide)

/-! ## Raw Python read of `tile_type` (grid.py lines 28-30)

`tile_type` performs an unguarded double list index `self.grid[r][c]`.
Python list indexing raises `IndexError` outside `[-len, len)` and
silently wraps negative indices in `[-len, -1]` to the end of the list.
This is embedded faithfully over the list-of-lists representation. -/

/-- Python list subscript `xs[i]`: `none` models `IndexError`. -/
def pyGet {α : Type} (xs : List α) (i : Int) : Option α :=
  if 0 ≤ i then xs.get? i.toNat
  else if 0 ≤ i + xs.length then xs.get? (i + xs.length).toNat
  else none

/-- `TileGrid.tile_type` (grid.py lines 28-30): `TileType(self.grid[r][c])`
over the stored list of rows. -/
def tile_type_py (grid : List (List TileType)) (r c : Int) : Option TileType :=
  (pyGet grid r).bind fun row => pyGet row c

theorem pyGet_nonneg {α : Type} (xs : List α) (i : Int) (h : 0 ≤ i) :
    pyGet xs i = xs.get? i.toNat := by
  unfold pyGet
  rw [if_pos h]

theorem pyGet_neg_wrap {α : Type} (xs : List α) (i : Int)
    (h0 : i < 0) (h1 : 0 ≤ i + xs.length) :
    pyGet xs i = xs.get? (i + xs.length).toNat := by
  unfold pyGet
  rw [if_neg (by omega), if_pos h1]

theorem pyGet_oob {α : Type} (xs : List α) (i : Int)
    (h : i < -(xs.length : Int) ∨ (xs.length : Int) ≤ i) :
    pyGet xs i = none := by
  unfold pyGet
  rcases h with h | h
  · rw [if_neg (by omega), if_neg (by omega)]
  · rw [if_pos (by omega), List.get?_eq_none.mpr (by omega)]

theorem pyGet_isSome {α : Type} (xs : List α) (i : Int)
    (h : -(xs.length : Int) ≤ i ∧ i < xs.length) :
    (pyGet xs i).isSome = true := by
  unfold pyGet
  by_cases h0 : 0 ≤ i
  · rw [if_pos h0, List.get?_eq_get (by omega)]; rfl
  · rw [if_neg h0, if_pos (by omega), List.get?_eq_get (by omega)]; rfl

/-- C8 counterexample: on a 1×1 grid holding an ALONE tile, reading at
(−1, 0) — outside `[0,h)×[0,w)` — does not fail: Python's negative
indexing silently wraps to the stored tile. -/
theorem claim_C8_counterexample :
    tile_type_py [[TileType.ALONE]] (-1) 0 = some TileType.ALONE ∧
      ¬(0 ≤ (-1 : Int)) := by
  constructor
  · rfl
  · decide

/-- C8 amended: reading at (r, c) fails exactly when (r, c) lies outside
`[-h,h)×[-w,w)`; for 0 ≤ r < h, 0 ≤ c < w it returns the stored shape;
negative in-range indices silently wrap Python-style to row `r + h` /
column `c + w` rather than failing. -/
theorem claim_C8_amended (grid : List (List TileType)) (h w : Nat)
    (hh : grid.length = h) (hw : ∀ row ∈ grid, row.length = w) (r c : Int) :
    (tile_type_py grid r c = none ↔
      (r < -(h : Int) ∨ (h : Int) ≤ r ∨ c < -(w : Int) ∨ (w : Int) ≤ c)) ∧
    (0 ≤ r → r < h → 0 ≤ c → c < w →
      tile_type_py grid r c = (grid.get? r.toNat).bind fun row => row.get? c.toNat) ∧
    (-(h : Int) ≤ r → r < 0 →
      tile_type_py grid r c = tile_type_py grid (r + h) c) ∧
    (-(w : Int) ≤ c → c < 0 →
      tile_type_py grid r c = tile_type_py grid r (c + w)) := by
  subst hh
  refine ⟨⟨?_, ?_⟩, ?_, ?_, ?_⟩
  · intro hnone
    by_contra hcon
    push_neg at hcon
    obtain ⟨h1, h2, h3, h4⟩ := hcon
    have hr : (pyGet grid r).isSome = true := pyGet_isSome _ _ ⟨by omega, by omega⟩
    obtain ⟨row, hrow⟩ := Option.isSome_iff_exists.mp hr
    have hrm : row ∈ grid := by
      unfold pyGet at hrow
      split_ifs at hrow with e1 e2
      · exact List.get?_mem hrow
      · exact List.get?_mem hrow
    have hwl : row.length = w := hw row hrm
    have hc : (pyGet row c).isSome = true := pyGet_isSome _ _ ⟨by omega, by omega⟩
    rw [tile_type_py, hrow, Option.some_bind] at hnone
    rw [hnone] at hc
    simp at hc
  · intro hout
    unfold tile_type_py
    rcases hout with hout | hout | hout | hout
    · rw [pyGet_oob _ _ (Or.inl (by omega))]; rfl
    · rw [pyGet_oob _ _ (Or.inr (by omega))]; rfl
    all_goals
    · cases hrow : pyGet grid r with
      | none => rfl
      | some row =>
        have hrm : row ∈ grid := by
          unfold pyGet at hrow
          split_ifs at hrow with e1 e2
          · exact List.get?_mem hrow
          · exact List.get?_mem hrow
        have hwl : row.length = w := hw row hrm
        rw [Option.some_bind, pyGet_oob _ _ (by omega)]
  · intro h1 h2 h3 h4
    unfold tile_type_py
    rw [pyGet_nonneg _ _ h1]
    cases hrow : grid.get? r.toNat with
    | none => rfl
    | some row =>
      rw [Option.some_bind, Option.some_bind, pyGet_nonneg _ _ h3]
  · intro h1 h2
    unfold tile_type_py
    rw [pyGet_neg_wrap _ _ h2 (by omega), pyGet_nonneg _ _ (by omega)]
  · intro h1 h2
    unfold tile_type_py
    cases hrow : pyGet grid r with
    | none => rfl
    | some row =>
      have hrm : row ∈ grid := by
        unfold pyGet at hrow
        split_ifs at hrow with e1 e2
        · exact List.get?_mem hrow
        · exact List.get?_mem hrow
      have hwl : row.length = w := hw row hrm
      rw [Option.some_bind, Option.some_bind,
        pyGet_neg_wrap _ _ h2 (by omega), pyGet_nonneg _ _ (by omega), hwl]

theorem claim_C8_amended_witness :
    (tile_type_py [[TileType.ALONE]] 2 0 = none ↔
      ((2 : Int) < -(1 : Nat) ∨ ((1 : Nat) : Int) ≤ 2 ∨ (0 : Int) < -(1 : Nat) ∨
        ((1 : Nat) : Int) ≤ 0)) ∧
    ((0 : Int) ≤ 2 → (2 : Int) < (1 : Nat) → (0 : Int) ≤ 0 → (0 : Int) < (1 : Nat) →
      tile_type_py [[TileType.ALONE]] 2 0 =
        ([[TileType.ALONE]].get? (2 : Int).toNat).bind fun row => row.get? (0 : Int).toNat) ∧
    (-((1 : Nat) : Int) ≤ 2 → (2 : Int) < 0 →
      tile_type_py [[TileType.ALONE]] 2 0 = tile_type_py [[TileType.ALONE]] (2 + (1 : Nat)) 0) ∧
    (-((1 : Nat) : Int) ≤ 0 → (0 : Int) < 0 →
      tile_type_py [[TileType.ALONE]] 2 0 = tile_type_py [[TileType.ALONE]] 2 (0 + (1 : Nat))) :=
  claim_C8_amended [[TileType.ALONE]] 1 1 rfl
    (by intro row hrow; simp at hrow; rw [hrow]; rfl) 2 0

/-! ## Structure of a successful `add_tile` -/

theorem setTile_w (g : TileGrid) (r c : Int) (t : TileType) :
    (g.setTile r c t).w = g.w := rfl

theorem setTile_h (g : TileGrid) (r c : Int) (t : TileType) :
    (g.setTile r c t).h = g.h := rfl

theorem setTile_same (g : TileGrid) (r c : Int) (t : TileType) :
    (g.setTile r c t).grid r c = t := by
  simp [TileGrid.setTile]

theorem setTile_other (g : TileGrid) (r c : Int) (t : TileType) (r' c' : Int)
    (h : ¬(r' = r ∧ c' = c)) : (g.setTile r c t).grid r' c' = g.grid r' c' := by
  simp only [TileGrid.setTile]
  rw [if_neg h]

theorem evaluate_isSome (g : TileGrid) (r c : Int) (m : Bool) :
    (g.evaluate_tile_type r c m).isSome = true := by
  by_cases hm : m = false ∧ g.grid r c = .EMPTY
  · unfold TileGrid.evaluate_tile_type
    rw [if_pos hm]
    rfl
  · have h : m = true ∨ g.grid r c ≠ .EMPTY := by
      cases m
      · exact Or.inr fun he => hm ⟨rfl, he⟩
      · exact Or.inl rfl
    obtain ⟨t, ht, -⟩ := evaluate_spec g r c m h
    rw [ht]
    rfl

theorem maskB_congr (g1 g2 : TileGrid) (hw : g1.w = g2.w) (hh : g1.h = g2.h)
    (r c : Int)
    (hadj : ∀ d : Direction,
      (g1.grid (nbrIdx (r, c) d).1 (nbrIdx (r, c) d).2 = .EMPTY) ↔
        (g2.grid (nbrIdx (r, c) d).1 (nbrIdx (r, c) d).2 = .EMPTY)) :
    ∀ d, g1.maskB r c d = g2.maskB r c d := by
  intro d
  have h := hadj d
  cases d <;>
    · simp only [nbrIdx] at h
      simp only [TileGrid.maskB, hw, hh]
      exact decide_eq_decide.mpr (by tauto)

theorem evaluate_congr (g1 g2 : TileGrid) (r c : Int) (m : Bool)
    (hw : g1.w = g2.w) (hh : g1.h = g2.h)
    (hself : m = false → ((g1.grid r c = .EMPTY) ↔ (g2.grid r c = .EMPTY)))
    (hadj : ∀ d : Direction,
      (g1.grid (nbrIdx (r, c) d).1 (nbrIdx (r, c) d).2 = .EMPTY) ↔
        (g2.grid (nbrIdx (r, c) d).1 (nbrIdx (r, c) d).2 = .EMPTY)) :
    g1.evaluate_tile_type r c m = g2.evaluate_tile_type r c m := by
  by_cases hm : m = false ∧ g1.grid r c = .EMPTY
  · have hm2 : m = false ∧ g2.grid r c = .EMPTY :=
      ⟨hm.1, (hself hm.1).mp hm.2⟩
    unfold TileGrid.evaluate_tile_type
    rw [if_pos hm, if_pos hm2]
  · have h1 : m = true ∨ g1.grid r c ≠ .EMPTY := by
      cases m
      · exact Or.inr fun he => hm ⟨rfl, he⟩
      · exact Or.inl rfl
    have h2 : m = true ∨ g2.grid r c ≠ .EMPTY := by
      rcases h1 with h | h
      · exact Or.inl h
      · cases m
        · exact Or.inr fun he => h ((hself rfl).mpr he)
        · exact Or.inl rfl
    have hmB := maskB_congr g1 g2 hw hh r c hadj
    rw [evaluate_eq_classify g1 r c m h1, evaluate_eq_classify g2 r c m h2,
      hmB .UP, hmB .RIGHT, hmB .DOWN, hmB .LEFT]

theorem reevalStep_spec (P : Prop) [Decidable P] (g : TileGrid) (q : Int × Int) :
    ∃ gn, reevalStep P g q = some gn ∧
      gn.w = g.w ∧ gn.h = g.h ∧
      (∀ r' c', ¬(r' = q.1 ∧ c' = q.2) → gn.grid r' c' = g.grid r' c') ∧
      (∀ r' c', (gn.grid r' c' = .EMPTY) ↔ (g.grid r' c' = .EMPTY)) ∧
      (P → g.evaluate_tile_type q.1 q.2 false = some (gn.grid q.1 q.2)) ∧
      (¬P → gn = g) := by
  by_cases hP : P
  · obtain ⟨t, ht⟩ := Option.isSome_iff_exists.mp (evaluate_isSome g q.1 q.2 false)
    refine ⟨g.setTile q.1 q.2 t, ?_, rfl, rfl, ?_, ?_, ?_, fun h => absurd hP h⟩
    · unfold reevalStep
      rw [if_pos hP, ht]
      rfl
    · intro r' c' h
      exact setTile_other g q.1 q.2 t r' c' h
    · intro r' c'
      by_cases hq : r' = q.1 ∧ c' = q.2
      · obtain ⟨e1, e2⟩ := hq
        subst e1
        subst e2
        rw [setTile_same]
        by_cases he : g.grid q.1 q.2 = .EMPTY
        · rw [evaluate_empty g q.1 q.2 he] at ht
          have ht' : t = .EMPTY := by injection ht with h2; exact h2.symm
          subst ht'
          simp [he]
        · obtain ⟨t2, ht2, hne, -⟩ := evaluate_spec g q.1 q.2 false (Or.inr he)
          rw [ht2] at ht
          have ht' : t = t2 := by injection ht with h2; exact h2.symm
          subst ht'
          exact iff_of_false hne he
      · rw [setTile_other g q.1 q.2 t r' c' hq]
    · intro _
      rw [ht, setTile_same]
  · refine ⟨g, ?_, rfl, rfl, fun _ _ _ => rfl, fun _ _ => Iff.rfl,
      fun h => absurd h hP, fun _ => rfl⟩
    unfold reevalStep
    rw [if_neg hP]

/-- The bounds guards of the four neighbor re-evaluations in `add_tile`
(grid.py lines 46-53), one per direction. -/
def writeGuard (g : TileGrid) (r c : Int) : Direction → Prop
  | .UP => r - 1 ≥ 0
  | .RIGHT => c + 1 < (g.w : Int)
  | .DOWN => r + 1 < (g.h : Int)
  | .LEFT => c - 1 ≥ 0

/-- Full structure of a successful `add_tile`: the result exists, the
placed cell carries the classification of its (final) neighbor mask,
EMPTY-ness changes only at the placed cell, only the placed cell and its
four compass neighbors can change at all, and every in-bounds non-EMPTY
neighbor ends up carrying the classification of its own mask. -/
theorem add_tile_spec (g : TileGrid) (r c : Int) (b : Bool)
    (hemp : g.grid r c = .EMPTY)
    (hres : b = true → g.get_neighbors r c ≠ []) :
    ∃ g', g.add_tile r c b = some (true, g') ∧
      g'.w = g.w ∧ g'.h = g.h ∧
      g'.evaluate_tile_type r c true = some (g'.grid r c) ∧
      (∀ r' c', (g'.grid r' c' = .EMPTY) ↔
        (g.grid r' c' = .EMPTY ∧ ¬(r' = r ∧ c' = c))) ∧
      (∀ r' c', ¬(r' = r ∧ c' = c) → ¬(r' = r - 1 ∧ c' = c) →
        ¬(r' = r ∧ c' = c + 1) → ¬(r' = r + 1 ∧ c' = c) →
        ¬(r' = r ∧ c' = c - 1) → g'.grid r' c' = g.grid r' c') ∧
      (∀ d : Direction, writeGuard g r c d →
        g.grid (nbrIdx (r, c) d).1 (nbrIdx (r, c) d).2 ≠ .EMPTY →
        g'.evaluate_tile_type (nbrIdx (r, c) d).1 (nbrIdx (r, c) d).2 false =
          some (g'.grid (nbrIdx (r, c) d).1 (nbrIdx (r, c) d).2)) := by
  obtain ⟨t0, ht0, ht0ne, -, -, -⟩ := evaluate_spec g r c true (Or.inl rfl)
  obtain ⟨g1, hs1, hw1, hh1, ha1, hb1, hc1, -⟩ :=
    reevalStep_spec (r - 1 ≥ 0) (g.setTile r c t0) (r-1, c)
  obtain ⟨g2, hs2, hw2, hh2, ha2, hb2, hc2, -⟩ :=
    reevalStep_spec (c + 1 < (g.w : Int)) g1 (r, c+1)
  obtain ⟨g3, hs3, hw3, hh3, ha3, hb3, hc3, -⟩ :=
    reevalStep_spec (r + 1 < (g.h : Int)) g2 (r+1, c)
  obtain ⟨g4, hs4, hw4, hh4, ha4, hb4, hc4, -⟩ :=
    reevalStep_spec (c - 1 ≥ 0) g3 (r, c-1)
  have hW : g4.w = g.w := by rw [hw4, hw3, hw2, hw1]; rfl
  have hH : g4.h = g.h := by rw [hh4, hh3, hh2, hh1]; rfl
  have hE3 : ∀ r' c', (g4.grid r' c' = .EMPTY) ↔ (g3.grid r' c' = .EMPTY) := hb4
  have hE2 : ∀ r' c', (g4.grid r' c' = .EMPTY) ↔ (g2.grid r' c' = .EMPTY) :=
    fun r' c' => (hb4 r' c').trans (hb3 r' c')
  have hE1 : ∀ r' c', (g4.grid r' c' = .EMPTY) ↔ (g1.grid r' c' = .EMPTY) :=
    fun r' c' => (hb4 r' c').trans ((hb3 r' c').trans (hb2 r' c'))
  have hE0 : ∀ r' c',
      (g4.grid r' c' = .EMPTY) ↔ ((g.setTile r c t0).grid r' c' = .EMPTY) :=
    fun r' c' => (hE1 r' c').trans (hb1 r' c')
  have hEmp : ∀ r' c', (g4.grid r' c' = .EMPTY) ↔
      (g.grid r' c' = .EMPTY ∧ ¬(r' = r ∧ c' = c)) := by
    intro r' c'
    rw [hE0 r' c']
    by_cases hq : r' = r ∧ c' = c
    · obtain ⟨e1, e2⟩ := hq
      subst e1
      subst e2
      rw [setTile_same]
      exact iff_of_false ht0ne fun hx => hx.2 ⟨rfl, rfl⟩
    · rw [setTile_other g r c t0 r' c' hq]
      simp [hq]
  have hcen : g4.grid r c = t0 :=
    (ha4 r c (by omega)).trans ((ha3 r c (by omega)).trans
      ((ha2 r c (by omega)).trans ((ha1 r c (by omega)).trans
        (setTile_same g r c t0))))
  refine ⟨g4, ?_, hW, hH, ?_, hEmp, ?_, ?_⟩
  · unfold TileGrid.add_tile
    rw [if_neg (by simp [hemp]), if_neg (fun hx => hres hx.1 hx.2), ht0,
      Option.some_bind, hs1, Option.some_bind, hs2, Option.some_bind, hs3,
      Option.some_bind, hs4, Option.map_some']
  · have hcongr := evaluate_congr g4 g r c true hW hH (fun hx => by simp at hx)
      (by
        intro d
        have hne : ¬((nbrIdx (r, c) d).1 = r ∧ (nbrIdx (r, c) d).2 = c) := by
          cases d <;> simp [nbrIdx] <;> omega
        rw [hEmp]
        simp [hne])
    rw [hcongr, ht0, hcen]
  · intro r' c' h0 h1 h2 h3 h4
    exact (ha4 r' c' h4).trans ((ha3 r' c' h3).trans ((ha2 r' c' h2).trans
      ((ha1 r' c' h1).trans (setTile_other g r c t0 r' c' h0))))
  · intro d hg hne
    cases d
    case UP =>
      simp only [nbrIdx, writeGuard] at hg hne ⊢
      have hval : g4.grid (r-1) c = g1.grid (r-1) c :=
        (ha4 _ _ (by omega)).trans ((ha3 _ _ (by omega)).trans
          (ha2 _ _ (by omega)))
      have hev1 := hc1 hg
      have hcongr := evaluate_congr g4 (g.setTile r c t0) (r-1) c false hW hH
        (fun _ => hE0 (r-1) c) (fun d' => hE0 _ _)
      rw [hcongr]
      exact hev1.trans (congrArg some hval.symm)
    case RIGHT =>
      simp only [nbrIdx, writeGuard] at hg hne ⊢
      have hval : g4.grid r (c+1) = g2.grid r (c+1) :=
        (ha4 _ _ (by omega)).trans (ha3 _ _ (by omega))
      have hev1 := hc2 hg
      have hcongr := evaluate_congr g4 g1 r (c+1) false
        (by rw [hW, hw1]; rfl) (by rw [hH, hh1]; rfl)
        (fun _ => hE1 r (c+1)) (fun d' => hE1 _ _)
      rw [hcongr]
      exact hev1.trans (congrArg some hval.symm)
    case DOWN =>
      simp only [nbrIdx, writeGuard] at hg hne ⊢
      have hval : g4.grid (r+1) c = g3.grid (r+1) c := ha4 _ _ (by omega)
      have hev1 := hc3 hg
      have hcongr := evaluate_congr g4 g2 (r+1) c false
        (by rw [hW, hw2, hw1]; rfl) (by rw [hH, hh2, hh1]; rfl)
        (fun _ => hE2 (r+1) c) (fun d' => hE2 _ _)
      rw [hcongr]
      exact hev1.trans (congrArg some hval.symm)
    case LEFT =>
      simp only [nbrIdx, writeGuard] at hg hne ⊢
      have hev1 := hc4 hg
      have hcongr := evaluate_congr g4 g3 r (c-1) false
        (by rw [hW, hw3, hw2, hw1]; rfl) (by rw [hH, hh3, hh2, hh1]; rfl)
        (fun _ => hE3 r (c-1)) (fun d' => hE3 _ _)
      rw [hcongr]
      exact hev1

theorem get_neighbors_eq_nil_iff (g : TileGrid) (r c : Int) :
    g.get_neighbors r c = [] ↔ ∀ d, g.maskB r c d = false := by
  constructor
  · intro h d
    cases hx : g.maskB r c d
    · rfl
    · have hl := get_neighbors_lookup g r c d
      rw [h, hx, if_pos rfl] at hl
      simp [List.lookup] at hl
  · intro h
    have hlen := get_neighbors_length g r c
    rw [h .UP, h .RIGHT, h .DOWN, h .LEFT] at hlen
    exact List.length_eq_zero.mp hlen

/-- C5: for every in-bounds cell, `add_tile` returns `false` and leaves
the grid unchanged exactly when the cell is occupied or (under
restriction) has no placed neighbor; otherwise it returns `true`. -/
theorem claim_C5 (g : TileGrid) (r c : Int) (b : Bool)
    (_hr0 : 0 ≤ r) (_hrh : r < (g.h : Int)) (_hc0 : 0 ≤ c)
    (_hcw : c < (g.w : Int)) :
    ∃ res g', g.add_tile r c b = some (res, g') ∧
      (res = false ↔
        (g.grid r c ≠ .EMPTY ∨ (b = true ∧ ∀ d, g.maskB r c d = false))) ∧
      (res = false → g' = g) := by
  by_cases h1 : g.grid r c ≠ .EMPTY
  · refine ⟨false, g, ?_, iff_of_true rfl (Or.inl h1), fun _ => rfl⟩
    unfold TileGrid.add_tile
    rw [if_pos h1]
  · push_neg at h1
    by_cases h2 : b = true ∧ g.get_neighbors r c = []
    · refine ⟨false, g, ?_, ?_, fun _ => rfl⟩
      · unfold TileGrid.add_tile
        rw [if_neg (by simp [h1]), if_pos h2]
      · exact iff_of_true rfl
          (Or.inr ⟨h2.1, (get_neighbors_eq_nil_iff g r c).mp h2.2⟩)
    · have hres : b = true → g.get_neighbors r c ≠ [] := fun hb hn => h2 ⟨hb, hn⟩
      obtain ⟨g', hadd, -⟩ := add_tile_spec g r c b h1 hres
      refine ⟨true, g', hadd, ?_, fun hx => by simp at hx⟩
      refine iff_of_false (by simp) ?_
      rintro (hc | ⟨hb, hmask⟩)
      · exact hc h1
      · exact h2 ⟨hb, (get_neighbors_eq_nil_iff g r c).mpr hmask⟩

theorem claim_C5_witness :
    ∃ res g', (TileGrid.init 2 2).add_tile 0 0 true = some (res, g') ∧
      (res = false ↔
        ((TileGrid.init 2 2).grid 0 0 ≠ .EMPTY ∨
          (true = true ∧ ∀ d, (TileGrid.init 2 2).maskB 0 0 d = false))) ∧
      (res = false → g' = TileGrid.init 2 2) :=
  claim_C5 (TileGrid.init 2 2) 0 0 true (by decide) (by decide) (by decide)
    (by decide)

/-- C6: a successful `add_tile` writes the placed cell with the shape
classified from its neighbor mask (ALONE when there are no placed
neighbors, never EMPTY), keeps in-bounds EMPTY neighbors EMPTY,
re-classifies in-bounds non-EMPTY neighbors from their own masks, and
leaves every cell other than the placed cell and its four compass
neighbors unchanged. -/
theorem claim_C6 (g : TileGrid) (r c : Int) (b : Bool) (g' : TileGrid)
    (_hr0 : 0 ≤ r) (_hrh : r < (g.h : Int)) (_hc0 : 0 ≤ c)
    (_hcw : c < (g.w : Int))
    (hadd : g.add_tile r c b = some (true, g')) :
    g'.evaluate_tile_type r c true = some (g'.grid r c) ∧
    g'.grid r c ≠ .EMPTY ∧
    ((∀ d, g.maskB r c d = false) → g'.grid r c = .ALONE) ∧
    (∀ d : Direction, writeGuard g r c d →
      g.grid (nbrIdx (r, c) d).1 (nbrIdx (r, c) d).2 = .EMPTY →
      g'.grid (nbrIdx (r, c) d).1 (nbrIdx (r, c) d).2 = .EMPTY) ∧
    (∀ d : Direction, writeGuard g r c d →
      g.grid (nbrIdx (r, c) d).1 (nbrIdx (r, c) d).2 ≠ .EMPTY →
      g'.evaluate_tile_type (nbrIdx (r, c) d).1 (nbrIdx (r, c) d).2 false =
        some (g'.grid (nbrIdx (r, c) d).1 (nbrIdx (r, c) d).2)) ∧
    (∀ r' c', ¬(r' = r ∧ c' = c) →
      (∀ d : Direction, ¬(r' = (nbrIdx (r, c) d).1 ∧ c' = (nbrIdx (r, c) d).2)) →
      g'.grid r' c' = g.grid r' c') := by
  have hemp : g.grid r c = .EMPTY := by
    by_contra hx
    unfold TileGrid.add_tile at hadd
    rw [if_pos hx] at hadd
    simp at hadd
  have hres : b = true → g.get_neighbors r c ≠ [] := by
    intro hb hn
    unfold TileGrid.add_tile at hadd
    rw [if_neg (by simp [hemp]), if_pos ⟨hb, hn⟩] at hadd
    simp at hadd
  obtain ⟨g4, hadd', hW, hH, hcev, hEmp, hOther, hNbr⟩ :=
    add_tile_spec g r c b hemp hres
  have hg4 : g' = g4 := by
    have hx := hadd.symm.trans hadd'
    simp at hx
    exact hx
  subst hg4
  have hnecen : ∀ d : Direction,
      ¬((nbrIdx (r, c) d).1 = r ∧ (nbrIdx (r, c) d).2 = c) := by
    intro d
    cases d <;> simp [nbrIdx] <;> omega
  refine ⟨hcev, fun hx => ((hEmp r c).mp hx).2 ⟨rfl, rfl⟩, ?_, ?_, hNbr, ?_⟩
  · have hmEq : ∀ d, g'.maskB r c d = g.maskB r c d :=
      maskB_congr g' g hW hH r c (by
        intro d
        rw [hEmp]
        simp [hnecen d])
    intro hall
    have h0 : ∀ d, g'.maskB r c d = false := fun d => (hmEq d).trans (hall d)
    have hthis := hcev
    rw [evaluate_eq_classify g' r c true (Or.inl rfl),
      h0 .UP, h0 .RIGHT, h0 .DOWN, h0 .LEFT] at hthis
    simp [classifyCount, boolCount] at hthis
    exact hthis.symm
  · intro d hg he
    exact (hEmp _ _).mpr ⟨he, hnecen d⟩
  · intro r' c' h0 hall
    exact hOther r' c' h0 (hall .UP) (hall .RIGHT) (hall .DOWN) (hall .LEFT)

theorem claim_C6_witness :
    (TileGrid.init 2 2).add_tile 0 0 false =
      some (true, (((TileGrid.init 2 2).setTile 0 0 .ALONE).setTile 0 1
        .EMPTY).setTile 1 0 .EMPTY) ∧
    ((((TileGrid.init 2 2).setTile 0 0 .ALONE).setTile 0 1
      .EMPTY).setTile 1 0 .EMPTY).grid 0 0 ≠ .EMPTY :=
  ⟨by rfl,
    (claim_C6 (TileGrid.init 2 2) 0 0 false
      ((((TileGrid.init 2 2).setTile 0 0 .ALONE).setTile 0 1
        .EMPTY).setTile 1 0 .EMPTY)
      (by decide) (by decide) (by decide) (by decide) (by rfl)).2.1⟩

/-! ## Travel graph (grid.py lines 146-344, network.py) -/

/-- `RoadSegmentNode` (grid.py lines 150-159): immutable value type,
structural equality. -/
structure RoadSegmentNode where
  tile_index : Int × Int
  dir : Direction
  node_type : RoadNodeType
deriving DecidableEq, Repr

/-- `TravelIntersection` (grid.py lines 198-249).  The Python `nodes`
dict always maps `dir ↦ {ENTER: RoadSegmentNode((r,c),dir,ENTER),
EXIT: RoadSegmentNode((r,c),dir,EXIT)}` — `add_segment_nodes` is its
only writer — so the embedding keeps the insertion-ordered key list
`dirs` and reconstructs the determined node pairs on demand. -/
structure TravelIntersection where
  r : Int
  c : Int
  dirs : List Direction
deriving Repr

/-- The ENTER node stored at `nodes[d][ENTER]` (grid.py lines 229-231). -/
def TravelIntersection.enterNode (i : TravelIntersection) (d : Direction) :
    RoadSegmentNode :=
  ⟨(i.r, i.c), d, .ENTER⟩

/-- The EXIT node stored at `nodes[d][EXIT]` (grid.py lines 232-233). -/
def TravelIntersection.exitNode (i : TravelIntersection) (d : Direction) :
    RoadSegmentNode :=
  ⟨(i.r, i.c), d, .EXIT⟩

/-- `TravelIntersection.add_segment_nodes` (grid.py lines 227-234):
dict assignment — appends a fresh key, overwrites (value-identically)
an existing one. -/
def TravelIntersection.add_segment_nodes (i : TravelIntersection)
    (d : Direction) : TravelIntersection :=
  if d ∈ i.dirs then i else { i with dirs := i.dirs ++ [d] }

/-- `TravelIntersection.__init__` (grid.py lines 216-221). -/
def TravelIntersection.init (r c : Int) (tile_type : TileType) :
    TravelIntersection :=
  tile_type.segment_directions.foldl (fun i d => i.add_segment_nodes d)
    ⟨r, c, []⟩

/-- `TravelIntersection.enter_nodes` (grid.py lines 236-239). -/
def TravelIntersection.enter_nodes (i : TravelIntersection) :
    List RoadSegmentNode :=
  i.dirs.map i.enterNode

/-- `TravelIntersection.exit_nodes` (grid.py lines 241-244). -/
def TravelIntersection.exit_nodes (i : TravelIntersection) :
    List RoadSegmentNode :=
  i.dirs.map i.exitNode

/-- `TravelIntersection.get_nodes_for_segment` (grid.py lines 246-249);
`none` models the `KeyError` on a missing segment. -/
def TravelIntersection.get_nodes_for_segment (i : TravelIntersection)
    (d : Direction) : Option (RoadSegmentNode × RoadSegmentNode) :=
  if d ∈ i.dirs then some (i.enterNode d, i.exitNode d) else none

/-- List insertion that keeps one copy, mirroring how a
`networkx.DiGraph` treats re-added nodes/edges as no-ops. -/
def insertNew {α : Type} [DecidableEq α] (l : List α) (a : α) : List α :=
  if a ∈ l then l else l ++ [a]

/-- The part of the `networkx.DiGraph` state the source uses: node set
and directed edge set (sets as duplicate-free lists). -/
structure DiGraph where
  nodes : List RoadSegmentNode
  edges : List (RoadSegmentNode × RoadSegmentNode)
deriving Repr

/-- `nx.DiGraph.add_edge`: inserts both endpoints and the edge. -/
def DiGraph.add_edge (g : DiGraph) (u v : RoadSegmentNode) : DiGraph :=
  { nodes := insertNew (insertNew g.nodes u) v,
    edges := insertNew g.edges (u, v) }

/-- The `try: remove_edge / except NetworkXError: pass` block of
grid.py lines 308-312: drop the edge if present, otherwise no-op. -/
def DiGraph.remove_edge_try (g : DiGraph) (u v : RoadSegmentNode) : DiGraph :=
  { g with edges := g.edges.filter fun e => decide (e ≠ (u, v)) }

/-- `TravelGraph` state (grid.py lines 252-264): the networkx digraph
plus the coordinate-keyed intersection dict. -/
structure TravelGraph where
  G : DiGraph
  intersections : (Int × Int) → Option TravelIntersection

/-- `TravelGraph.__init__` (grid.py lines 262-264). -/
def TravelGraph.init : TravelGraph :=
  ⟨⟨[], []⟩, fun _ => none⟩

/-- `TravelGraph._intraconnect_nodes` (grid.py lines 316-339), acting on
the digraph: one segment → single U-turn edge; otherwise every ENTER is
connected to every EXIT of a different direction. -/
def intraconnect_nodes (G : DiGraph) (insct : TravelIntersection) : DiGraph :=
  match insct.dirs with
  | [d] => G.add_edge (insct.enterNode d) (insct.exitNode d)
  | _ =>
    insct.enter_nodes.foldl
      (fun G en =>
        insct.exit_nodes.foldl
          (fun G ex => if ex.dir = en.dir then G else G.add_edge en ex) G)
      G

/-- `TravelGraph._update_intersection_intraconnected_edges` (grid.py
lines 295-314): remove any ENTER(d)→EXIT(d) self-connection for each
current segment, then intraconnect. -/
def update_intersection_intraconnected_edges (G : DiGraph)
    (insct : TravelIntersection) : DiGraph :=
  intraconnect_nodes
    (insct.dirs.foldl
      (fun G d => G.remove_edge_try (insct.enterNode d) (insct.exitNode d)) G)
    insct

/-- A Python `for` loop whose body may raise (`none`), threading the
accumulator. -/
def loopFold {α β : Type} (f : β → α → Option β) : List α → β → Option β
  | [], st => some st
  | x :: xs, st => (f st x).bind fun st' => loopFold f xs st'

/-- The body of the first neighbor loop of `register_tile_intersection`
(grid.py lines 278-283): fetch the neighbor intersection (KeyError →
`none`), add the segment facing the new tile, recompute its
intraconnected edges.  The in-place Python mutation of the stored
intersection is the map update. -/
def registerNbrStep
    (st : DiGraph × ((Int × Int) → Option TravelIntersection))
    (entry : Direction × (Int × Int) × TileType) :
    Option (DiGraph × ((Int × Int) → Option TravelIntersection)) :=
  (st.2 entry.2.1).bind fun n0 =>
    let n := n0.add_segment_nodes entry.1.opposite
    some (update_intersection_intraconnected_edges st.1 n,
      fun p => if p = entry.2.1 then some n else st.2 p)

/-- The body of the second neighbor loop (grid.py lines 286-291): add
the two boundary crossing edges between the new intersection and the
neighbor intersection. -/
def crossEdgeStep (insct : TravelIntersection)
    (inters : (Int × Int) → Option TravelIntersection)
    (G2 : DiGraph) (entry : Direction × (Int × Int) × TileType) :
    Option DiGraph :=
  (inters entry.2.1).bind fun n =>
  (insct.get_nodes_for_segment entry.1).bind fun ee =>
  (n.get_nodes_for_segment entry.1.opposite).bind fun nn =>
    some ((G2.add_edge ee.2 nn.1).add_edge nn.2 ee.1)

/-- `TravelGraph.register_tile_intersection` (grid.py lines 266-293).
`none` models an uncaught `KeyError` (missing neighbor intersection or
missing segment). -/
def TravelGraph.register_tile_intersection (tg : TravelGraph) (r c : Int)
    (tile_type : TileType)
    (nbrs : List (Direction × (Int × Int) × TileType)) : Option TravelGraph :=
  let insct := TravelIntersection.init r c tile_type
  let G := intraconnect_nodes tg.G insct
  (loopFold registerNbrStep nbrs (G, tg.intersections)).bind fun st =>
  (loopFold (crossEdgeStep insct st.2) nbrs st.1).bind fun G2 =>
  some { G := G2,
         intersections := fun p => if p = (r, c) then some insct else st.2 p }

/-- `RoadNetwork` (network.py lines 5-22); the traffic collaborator and
the pass-through timing constants are outside the claims' scope. -/
structure RoadNetwork where
  w : Nat
  h : Nat
  grid : TileGrid
  graph : TravelGraph

/-- `RoadNetwork.__init__` (network.py lines 10-22). -/
def RoadNetwork.init (w h : Nat) : RoadNetwork :=
  ⟨w, h, TileGrid.init w h, TravelGraph.init⟩

/-- `RoadNetwork.add_road` (network.py lines 24-35): grid insertion,
then (on success) intersection registration with the updated grid's
neighbor map and freshly read tile type. -/
def RoadNetwork.add_road (net : RoadNetwork) (r c : Int)
    (restrict_to_neighbors : Bool) : Option (Bool × RoadNetwork) :=
  (net.grid.add_tile r c restrict_to_neighbors).bind fun res =>
    if res.1 then
      (net.graph.register_tile_intersection r c (res.2.grid r c)
          (res.2.get_neighbors r c)).bind fun graph =>
        some (true, { net with grid := res.2, graph := graph })
    else some (false, { net with grid := res.2 })

/-! ## Per-step evolution of the travel graph (claim C3) -/

theorem mem_insertNew {α : Type} [DecidableEq α] (l : List α) (a x : α) :
    x ∈ insertNew l a ↔ x = a ∨ x ∈ l := by
  unfold insertNew
  split_ifs with h
  · constructor
    · exact Or.inr
    · rintro (rfl | hx)
      · exact h
      · exact hx
  · simp [or_comm]

theorem add_edge_nodes (g : DiGraph) (u v x : RoadSegmentNode) :
    x ∈ (g.add_edge u v).nodes ↔ x = u ∨ x = v ∨ x ∈ g.nodes := by
  simp [DiGraph.add_edge, mem_insertNew]
  tauto

theorem add_edge_edges (g : DiGraph) (u v : RoadSegmentNode)
    (e : RoadSegmentNode × RoadSegmentNode) :
    e ∈ (g.add_edge u v).edges ↔ e = (u, v) ∨ e ∈ g.edges := by
  simp [DiGraph.add_edge, mem_insertNew]

theorem remove_edge_try_edges (g : DiGraph) (u v : RoadSegmentNode)
    (e : RoadSegmentNode × RoadSegmentNode) :
    e ∈ (g.remove_edge_try u v).edges ↔ e ∈ g.edges ∧ e ≠ (u, v) := by
  simp [DiGraph.remove_edge_try, List.mem_filter]

theorem remove_edge_try_nodes (g : DiGraph) (u v : RoadSegmentNode) :
    (g.remove_edge_try u v).nodes = g.nodes := rfl

/-- Shape of a dead-end U-turn self-loop: an ENTER→EXIT edge within one
segment of one tile. -/
def uturnShape (e : RoadSegmentNode × RoadSegmentNode) : Prop :=
  e.1.tile_index = e.2.tile_index ∧ e.1.dir = e.2.dir ∧
    e.1.node_type = .ENTER ∧ e.2.node_type = .EXIT

/-- One graph-maintenance step may add anything but may only remove
U-turn-shaped edges, and never removes a node. -/
def GraphStep (g g' : DiGraph) : Prop :=
  (∀ n ∈ g.nodes, n ∈ g'.nodes) ∧
    (∀ e ∈ g.edges, e ∈ g'.edges ∨ uturnShape e)

theorem GraphStep.refl (g : DiGraph) : GraphStep g g :=
  ⟨fun _ h => h, fun _ h => Or.inl h⟩

theorem GraphStep.trans {g1 g2 g3 : DiGraph} (h1 : GraphStep g1 g2)
    (h2 : GraphStep g2 g3) : GraphStep g1 g3 := by
  refine ⟨fun n hn => h2.1 n (h1.1 n hn), fun e he => ?_⟩
  rcases h1.2 e he with h | h
  · exact h2.2 e h
  · exact Or.inr h

theorem GraphStep.add_edge (g : DiGraph) (u v : RoadSegmentNode) :
    GraphStep g (g.add_edge u v) := by
  refine ⟨fun n hn => ?_, fun e he => Or.inl ?_⟩
  · rw [add_edge_nodes]
    exact Or.inr (Or.inr hn)
  · rw [add_edge_edges]
    exact Or.inr he

theorem GraphStep.remove_uturn (g : DiGraph) (i : TravelIntersection)
    (d : Direction) :
    GraphStep g (g.remove_edge_try (i.enterNode d) (i.exitNode d)) := by
  refine ⟨fun n hn => hn, fun e he => ?_⟩
  by_cases hx : e = (i.enterNode d, i.exitNode d)
  · subst hx
    exact Or.inr ⟨rfl, rfl, rfl, rfl⟩
  · exact Or.inl ((remove_edge_try_edges g _ _ e).mpr ⟨he, hx⟩)

theorem GraphStep.foldl {α : Type} (f : DiGraph → α → DiGraph)
    (hf : ∀ g x, GraphStep g (f g x)) :
    ∀ (l : List α) (g : DiGraph), GraphStep g (l.foldl f g) := by
  intro l
  induction l with
  | nil => exact fun g => GraphStep.refl g
  | cons x xs ih => exact fun g => (hf g x).trans (ih (f g x))

theorem GraphStep.intraconnect (g : DiGraph) (i : TravelIntersection) :
    GraphStep g (intraconnect_nodes g i) := by
  unfold intraconnect_nodes
  split
  · exact GraphStep.add_edge _ _ _
  · refine GraphStep.foldl _ (fun g1 en => ?_) _ g
    refine GraphStep.foldl _ (fun g2 ex => ?_) _ g1
    by_cases hx : ex.dir = en.dir
    · rw [if_pos hx]
      exact GraphStep.refl g2
    · rw [if_neg hx]
      exact GraphStep.add_edge _ _ _

theorem GraphStep.update (g : DiGraph) (i : TravelIntersection) :
    GraphStep g (update_intersection_intraconnected_edges g i) :=
  (GraphStep.foldl _ (fun g1 d => GraphStep.remove_uturn g1 i d) i.dirs g).trans
    (GraphStep.intraconnect _ i)

theorem loopFold_cons {α β : Type} (f : β → α → Option β) (x : α) (xs : List α)
    (st : β) :
    loopFold f (x :: xs) st = (f st x).bind fun st' => loopFold f xs st' := rfl

theorem loopFold_graphStep {α β : Type} (proj : β → DiGraph)
    (f : β → α → Option β)
    (hf : ∀ st x st', f st x = some st' → GraphStep (proj st) (proj st')) :
    ∀ (l : List α) (st st' : β), loopFold f l st = some st' →
      GraphStep (proj st) (proj st') := by
  intro l
  induction l with
  | nil =>
    intro st st' h
    obtain rfl : st = st' := by
      simpa [loopFold] using h
    exact GraphStep.refl _
  | cons x xs ih =>
    intro st st' h
    rw [loopFold_cons] at h
    obtain ⟨st1, h1, h2⟩ := Option.bind_eq_some.mp h
    exact (hf st x st1 h1).trans (ih st1 st' h2)

theorem registerNbrStep_graphStep (st : DiGraph × ((Int × Int) → Option TravelIntersection))
    (x : Direction × (Int × Int) × TileType)
    (st' : DiGraph × ((Int × Int) → Option TravelIntersection))
    (h : registerNbrStep st x = some st') : GraphStep st.1 st'.1 := by
  unfold registerNbrStep at h
  obtain ⟨n0, hn0, h2⟩ := Option.bind_eq_some.mp h
  obtain rfl : (update_intersection_intraconnected_edges st.1
      (n0.add_segment_nodes x.1.opposite),
      fun p => if p = x.2.1 then some (n0.add_segment_nodes x.1.opposite)
        else st.2 p) = st' := by
    simpa using h2
  exact GraphStep.update st.1 _

theorem crossEdgeStep_graphStep (insct : TravelIntersection)
    (inters : (Int × Int) → Option TravelIntersection) (G2 : DiGraph)
    (x : Direction × (Int × Int) × TileType) (G3 : DiGraph)
    (h : crossEdgeStep insct inters G2 x = some G3) : GraphStep G2 G3 := by
  unfold crossEdgeStep at h
  obtain ⟨n, hn, h2⟩ := Option.bind_eq_some.mp h
  obtain ⟨ee, hee, h3⟩ := Option.bind_eq_some.mp h2
  obtain ⟨nn, hnn, h4⟩ := Option.bind_eq_some.mp h3
  obtain rfl : (G2.add_edge ee.2 nn.1).add_edge nn.2 ee.1 = G3 := by
    simpa using h4
  exact (GraphStep.add_edge _ _ _).trans (GraphStep.add_edge _ _ _)

theorem register_graphStep (tg : TravelGraph) (r c : Int) (tt : TileType)
    (nbrs : List (Direction × (Int × Int) × TileType)) (tg' : TravelGraph)
    (hreg : tg.register_tile_intersection r c tt nbrs = some tg') :
    GraphStep tg.G tg'.G := by
  unfold TravelGraph.register_tile_intersection at hreg
  obtain ⟨st, hst, h2⟩ := Option.bind_eq_some.mp hreg
  obtain ⟨G2, hG2, h3⟩ := Option.bind_eq_some.mp h2
  have hG : tg'.G = G2 := by
    obtain rfl : _ = tg' := by simpa using h3
    rfl
  rw [hG]
  exact ((GraphStep.intraconnect tg.G (TravelIntersection.init r c tt)).trans
    (loopFold_graphStep Prod.fst registerNbrStep registerNbrStep_graphStep
      nbrs _ st hst)).trans
    (loopFold_graphStep id (crossEdgeStep (TravelIntersection.init r c tt) st.2)
      (crossEdgeStep_graphStep (TravelIntersection.init r c tt) st.2)
      nbrs st.1 G2 hG2)

/-- C3: a single successful `register_tile_intersection` never removes
a vertex; the only edges it can remove are dead-end U-turn self-loops
(ENTER(d)→EXIT(d) within one intersection); in particular every crossing
edge (between two different tile coordinates) survives. -/
theorem claim_C3 (tg : TravelGraph) (r c : Int) (tt : TileType)
    (nbrs : List (Direction × (Int × Int) × TileType)) (tg' : TravelGraph)
    (hreg : tg.register_tile_intersection r c tt nbrs = some tg') :
    (∀ n ∈ tg.G.nodes, n ∈ tg'.G.nodes) ∧
    (∀ e ∈ tg.G.edges, e ∉ tg'.G.edges →
      e.1.tile_index = e.2.tile_index ∧ e.1.dir = e.2.dir ∧
        e.1.node_type = .ENTER ∧ e.2.node_type = .EXIT) ∧
    (∀ e ∈ tg.G.edges, e.1.tile_index ≠ e.2.tile_index → e ∈ tg'.G.edges) := by
  have h := register_graphStep tg r c tt nbrs tg' hreg
  refine ⟨h.1, ?_, ?_⟩
  · intro e he hne
    rcases h.2 e he with hx | hx
    · exact absurd hx hne
    · exact hx
  · intro e he hne
    rcases h.2 e he with hx | hx
    · exact hx
    · exact absurd hx.1 hne

theorem claim_C3_witness :
    (⟨((0 : Int), (0 : Int)), .UP, .ENTER⟩ : RoadSegmentNode) ∈
      (TravelGraph.mk
        (intraconnect_nodes
          (DiGraph.mk [⟨((0 : Int), (0 : Int)), .UP, .ENTER⟩] [])
          (TravelIntersection.init 5 5 TileType.ALONE))
        (fun p => if p = (5, 5)
          then some (TravelIntersection.init 5 5 TileType.ALONE)
          else (TravelGraph.mk
            (DiGraph.mk [⟨((0 : Int), (0 : Int)), .UP, .ENTER⟩] [])
            (fun _ => none)).intersections p)).G.nodes :=
  (claim_C3 (TravelGraph.mk
      (DiGraph.mk [⟨((0 : Int), (0 : Int)), .UP, .ENTER⟩] [])
      (fun _ => none)) 5 5 .ALONE [] _ rfl).1
    ⟨((0 : Int), (0 : Int)), .UP, .ENTER⟩ (by decide)

/-! ## Shortest path (grid.py lines 341-344)

`TravelGraph.shortest_path` delegates to `networkx.shortest_path`, an
external library routine.  It is modelled from the spec: an unweighted
breadth-first search returning a minimum-hop node sequence, raising
`NodeNotFound` when an endpoint is absent and `NetworkXNoPath` when the
target is unreachable. -/

/-- Modelled from the spec: the two routing failures surfaced by
`networkx.shortest_path` — UnknownNode (`NodeNotFound`) and NoPathFound
(`NetworkXNoPath`). -/
inductive PathError
  | UnknownNode
  | NoPathFound
deriving DecidableEq, Repr

/-- Successors of a node along directed edges. -/
def succs (g : DiGraph) (u : RoadSegmentNode) : List RoadSegmentNode :=
  g.edges.filterMap fun e => if e.1 = u then some e.2 else none

/-- One BFS expansion: the set together with all direct successors. -/
def expandV (g : DiGraph) (V : List RoadSegmentNode) : List RoadSegmentNode :=
  V.foldl (fun acc u => (succs g u).foldl insertNew acc) V

/-- BFS levels from `s`: `levels g s k` holds every node reachable in at
most `k` hops. -/
def levels (g : DiGraph) (s : RoadSegmentNode) : Nat → List RoadSegmentNode
  | 0 => [s]
  | k+1 => expandV g (levels g s k)

theorem mem_succs (g : DiGraph) (u x : RoadSegmentNode) :
    x ∈ succs g u ↔ (u, x) ∈ g.edges := by
  unfold succs
  rw [List.mem_filterMap]
  constructor
  · rintro ⟨⟨e1, e2⟩, he, hfe⟩
    by_cases h1 : e1 = u
    · subst h1
      simp at hfe
      subst hfe
      exact he
    · simp [h1] at hfe
  · intro h
    exact ⟨(u, x), h, by simp⟩

theorem mem_foldl_insertNew {α : Type} [DecidableEq α] (l : List α) :
    ∀ (acc : List α) (x : α), x ∈ l.foldl insertNew acc ↔ x ∈ acc ∨ x ∈ l := by
  induction l with
  | nil => intro acc x; simp
  | cons a l ih =>
    intro acc x
    rw [List.foldl_cons, ih, mem_insertNew]
    simp
    tauto

theorem mem_expandV (g : DiGraph) (V : List RoadSegmentNode)
    (x : RoadSegmentNode) :
    x ∈ expandV g V ↔ x ∈ V ∨ ∃ u ∈ V, (u, x) ∈ g.edges := by
  have haux : ∀ (L acc : List RoadSegmentNode),
      (x ∈ L.foldl (fun acc u => (succs g u).foldl insertNew acc) acc ↔
        x ∈ acc ∨ ∃ u ∈ L, (u, x) ∈ g.edges) := by
    intro L
    induction L with
    | nil => intro acc; simp
    | cons u L ih =>
      intro acc
      rw [List.foldl_cons, ih, mem_foldl_insertNew, mem_succs]
      simp
      tauto
  exact haux V V

theorem subset_expandV (g : DiGraph) (V : List RoadSegmentNode) :
    ∀ x ∈ V, x ∈ expandV g V :=
  fun x hx => (mem_expandV g V x).mpr (Or.inl hx)

theorem levels_mono_succ (g : DiGraph) (s : RoadSegmentNode) (k : Nat) :
    ∀ x ∈ levels g s k, x ∈ levels g s (k+1) :=
  fun x hx => subset_expandV g (levels g s k) x hx

theorem levels_mono (g : DiGraph) (s : RoadSegmentNode) {j k : Nat}
    (h : j ≤ k) : ∀ x ∈ levels g s j, x ∈ levels g s k := by
  induction k with
  | zero =>
    obtain rfl : j = 0 := Nat.le_zero.mp h
    exact fun x hx => hx
  | succ k ih =>
    rcases Nat.lt_or_ge j (k+1) with hlt | hge
    · exact fun x hx => levels_mono_succ g s k x (ih (Nat.lt_succ_iff.mp hlt) x hx)
    · obtain rfl : j = k + 1 := Nat.le_antisymm h hge
      exact fun x hx => hx

theorem insertNew_nodup {α : Type} [DecidableEq α] (l : List α) (a : α)
    (h : l.Nodup) : (insertNew l a).Nodup := by
  unfold insertNew
  split_ifs with hm
  · exact h
  · simp [List.nodup_append, h, hm]

theorem foldl_insertNew_nodup {α : Type} [DecidableEq α] (l : List α) :
    ∀ acc : List α, acc.Nodup → (l.foldl insertNew acc).Nodup := by
  induction l with
  | nil => exact fun acc h => h
  | cons a l ih => exact fun acc h => ih (insertNew acc a) (insertNew_nodup acc a h)

theorem expandV_nodup (g : DiGraph) (V : List RoadSegmentNode) (h : V.Nodup) :
    (expandV g V).Nodup := by
  have haux : ∀ (L acc : List RoadSegmentNode), acc.Nodup →
      (L.foldl (fun acc u => (succs g u).foldl insertNew acc) acc).Nodup := by
    intro L
    induction L with
    | nil => exact fun acc h => h
    | cons u L ih =>
      exact fun acc hacc => ih _ (foldl_insertNew_nodup (succs g u) acc hacc)
  exact haux V V h

theorem levels_nodup (g : DiGraph) (s : RoadSegmentNode) (k : Nat) :
    (levels g s k).Nodup := by
  induction k with
  | zero => simp [levels]
  | succ k ih => exact expandV_nodup g _ ih

theorem levels_subset_bound (g : DiGraph) (s : RoadSegmentNode) (k : Nat) :
    ∀ x ∈ levels g s k, x ∈ s :: g.edges.map Prod.snd := by
  induction k with
  | zero => intro x hx; simp [levels] at hx; simp [hx]
  | succ k ih =>
    intro x hx
    rcases (mem_expandV g _ x).mp hx with h | ⟨u, -, hu⟩
    · exact ih x h
    · exact List.mem_cons_of_mem s (List.mem_map.mpr ⟨(u, x), hu, rfl⟩)

theorem levels_length_le (g : DiGraph) (s : RoadSegmentNode) (k : Nat) :
    (levels g s k).length ≤ g.edges.length + 1 := by
  have h1 : (levels g s k).toFinset.card = (levels g s k).length :=
    List.toFinset_card_of_nodup (levels_nodup g s k)
  have h2 : (levels g s k).toFinset ⊆ (s :: g.edges.map Prod.snd).toFinset := by
    intro x hx
    rw [List.mem_toFinset] at hx ⊢
    exact levels_subset_bound g s k x hx
  have h3 := Finset.card_le_card h2
  have h4 := List.toFinset_card_le (s :: g.edges.map Prod.snd)
  have h5 : (s :: g.edges.map Prod.snd).length = g.edges.length + 1 := by simp
  omega

theorem insertNew_length_le {α : Type} [DecidableEq α] (l : List α) (a : α) :
    l.length ≤ (insertNew l a).length := by
  unfold insertNew
  split_ifs <;> simp

theorem insertNew_eq_of_length {α : Type} [DecidableEq α] (l : List α) (a : α)
    (h : (insertNew l a).length = l.length) : insertNew l a = l := by
  unfold insertNew at h ⊢
  split_ifs at h ⊢ with hm
  · rfl
  · simp at h

theorem foldl_insertNew_length_le {α : Type} [DecidableEq α] (l : List α) :
    ∀ acc : List α, acc.length ≤ (l.foldl insertNew acc).length := by
  induction l with
  | nil => exact fun _ => le_refl _
  | cons a l ih =>
    intro acc
    exact (insertNew_length_le acc a).trans (ih (insertNew acc a))

theorem foldl_insertNew_eq_of_length {α : Type} [DecidableEq α] (l : List α) :
    ∀ acc : List α, (l.foldl insertNew acc).length = acc.length →
      l.foldl insertNew acc = acc := by
  induction l with
  | nil => exact fun _ _ => rfl
  | cons a l ih =>
    intro acc h
    rw [List.foldl_cons] at h ⊢
    have h1 := insertNew_length_le acc a
    have h2 := foldl_insertNew_length_le l (insertNew acc a)
    have heq : insertNew acc a = acc := insertNew_eq_of_length acc a (by omega)
    rw [heq] at h ⊢
    exact ih acc h

theorem foldl_expand_length_le (g : DiGraph) (L : List RoadSegmentNode) :
    ∀ acc : List RoadSegmentNode,
      acc.length ≤
        (L.foldl (fun acc u => (succs g u).foldl insertNew acc) acc).length := by
  induction L with
  | nil => exact fun _ => le_refl _
  | cons u L ih =>
    intro acc
    exact (foldl_insertNew_length_le (succs g u) acc).trans (ih _)

theorem expandV_length_le (g : DiGraph) (V : List RoadSegmentNode) :
    V.length ≤ (expandV g V).length :=
  foldl_expand_length_le g V V

theorem expandV_eq_of_length (g : DiGraph) (V : List RoadSegmentNode)
    (h : (expandV g V).length = V.length) : expandV g V = V := by
  have haux : ∀ (L acc : List RoadSegmentNode),
      (L.foldl (fun acc u => (succs g u).foldl insertNew acc) acc).length =
        acc.length →
      L.foldl (fun acc u => (succs g u).foldl insertNew acc) acc = acc := by
    intro L
    induction L with
    | nil => exact fun _ _ => rfl
    | cons u L ih =>
      intro acc hlen
      rw [List.foldl_cons] at hlen ⊢
      have h1 := foldl_insertNew_length_le (succs g u) acc
      have h3 := foldl_expand_length_le g L ((succs g u).foldl insertNew acc)
      have heq : (succs g u).foldl insertNew acc = acc :=
        foldl_insertNew_eq_of_length (succs g u) acc (by omega)
      rw [heq] at hlen ⊢
      exact ih acc hlen
  exact haux V V h

theorem levels_stable_step (g : DiGraph) (s : RoadSegmentNode) (k : Nat)
    (h : levels g s (k+1) = levels g s k) :
    ∀ m, k ≤ m → levels g s m = levels g s k := by
  intro m
  induction m with
  | zero =>
    intro hm
    obtain rfl : k = 0 := Nat.le_zero.mp hm
    rfl
  | succ m ih =>
    intro hm
    rcases Nat.lt_or_ge k (m+1) with hlt | hge
    · have him := ih (Nat.lt_succ_iff.mp hlt)
      calc levels g s (m+1) = expandV g (levels g s m) := rfl
        _ = expandV g (levels g s k) := by rw [him]
        _ = levels g s (k+1) := rfl
        _ = levels g s k := h
    · obtain rfl : k = m + 1 := Nat.le_antisymm hm hge
      rfl

theorem exists_stable (g : DiGraph) (s : RoadSegmentNode) :
    ∃ j, j ≤ g.edges.length + 1 ∧ levels g s (j+1) = levels g s j := by
  by_contra hcon
  push_neg at hcon
  have hstrict : ∀ j, j ≤ g.edges.length + 1 →
      (levels g s j).length + 1 ≤ (levels g s (j+1)).length := by
    intro j hj
    have hdef : levels g s (j+1) = expandV g (levels g s j) := rfl
    rw [hdef]
    have hle := expandV_length_le g (levels g s j)
    rcases Nat.lt_or_ge (levels g s j).length
        (expandV g (levels g s j)).length with hlt | hge
    · omega
    · have heq : expandV g (levels g s j) = levels g s j :=
        expandV_eq_of_length g (levels g s j) (by omega)
      exact absurd (hdef.trans heq) (hcon j hj)
  have hgrow : ∀ j, j ≤ g.edges.length + 2 → j + 1 ≤ (levels g s j).length := by
    intro j
    induction j with
    | zero => intro _; simp [levels]
    | succ j ih =>
      intro hj
      have h1 := ih (by omega)
      have h2 := hstrict j (by omega)
      omega
  have hA := hgrow (g.edges.length + 2) (le_refl _)
  have hB := levels_length_le g s (g.edges.length + 2)
  omega

theorem levels_subset_stable (g : DiGraph) (s : RoadSegmentNode) :
    ∀ m, ∀ x ∈ levels g s m, x ∈ levels g s (g.edges.length + 1) := by
  obtain ⟨j, hj, hstab⟩ := exists_stable g s
  intro m x hx
  rcases le_or_lt m (g.edges.length + 1) with hm | hm
  · exact levels_mono g s hm x hx
  · have hmj : levels g s m = levels g s j :=
      levels_stable_step g s j hstab m (by omega)
    rw [hmj] at hx
    exact levels_mono g s hj x hx

/-- The node sequence that `shortest_path` returns: starts at `s`, ends
at `t`, and every consecutive pair is a directed edge. -/
def IsTravelPath (g : DiGraph) (s t : RoadSegmentNode)
    (l : List RoadSegmentNode) : Prop :=
  l.head? = some s ∧ l.getLast? = some t ∧
    l.Chain' fun u v => (u, v) ∈ g.edges

/-- BFS path reconstruction: a walk from `s` to `t` of at most `k` hops,
assuming `t ∈ levels g s k`. -/
def buildPath (g : DiGraph) (s : RoadSegmentNode) :
    Nat → RoadSegmentNode → List RoadSegmentNode
  | 0, t => [t]
  | k+1, t =>
    if t ∈ levels g s k then buildPath g s k t
    else
      match (levels g s k).find? (fun u => decide ((u, t) ∈ g.edges)) with
      | some u => buildPath g s k u ++ [t]
      | none => [t]

/-- Linear search for the first BFS level containing `t`. -/
def firstHitAux (g : DiGraph) (s t : RoadSegmentNode) :
    Nat → Nat → Option Nat
  | _, 0 => none
  | k, fuel+1 =>
    if t ∈ levels g s k then some k else firstHitAux g s t (k+1) fuel

/-- Modelled from the spec: `networkx.shortest_path(G, source, target)`
on an unweighted digraph — a BFS producing a minimum-hop-count ordered
node sequence, `NodeNotFound` (UnknownNode) when an endpoint is absent
from the graph, `NetworkXNoPath` (NoPathFound) when the target is
unreachable. -/
def nxShortestPath (g : DiGraph) (s t : RoadSegmentNode) :
    Except PathError (List RoadSegmentNode) :=
  if s ∈ g.nodes ∧ t ∈ g.nodes then
    match firstHitAux g s t 0 (g.edges.length + 2) with
    | some k => .ok (buildPath g s k t)
    | none => .error .NoPathFound
  else .error .UnknownNode

/-- `TravelGraph.shortest_path` (grid.py lines 341-344): delegates to
the library routine on `self.G`. -/
def TravelGraph.shortest_path (tg : TravelGraph)
    (source_node target_node : RoadSegmentNode) :
    Except PathError (List RoadSegmentNode) :=
  nxShortestPath tg.G source_node target_node

theorem buildPath_spec (g : DiGraph) (s : RoadSegmentNode) :
    ∀ (k : Nat) (t : RoadSegmentNode), t ∈ levels g s k →
      IsTravelPath g s t (buildPath g s k t) ∧
        (buildPath g s k t).length ≤ k + 1 := by
  intro k
  induction k with
  | zero =>
    intro t ht
    have hts : t = s := by simpa [levels] using ht
    subst hts
    exact ⟨⟨rfl, rfl, List.chain'_singleton t⟩, by simp [buildPath]⟩
  | succ k ih =>
    intro t ht
    by_cases hk : t ∈ levels g s k
    · obtain ⟨h1, h2⟩ := ih t hk
      simp only [buildPath, if_pos hk]
      exact ⟨h1, by omega⟩
    · rcases (mem_expandV g _ t).mp ht with hcase | ⟨u, hu, hedge⟩
      · exact absurd hcase hk
      · cases hfind : (levels g s k).find? (fun u => decide ((u, t) ∈ g.edges)) with
        | none =>
          exfalso
          have hx := List.find?_eq_none.mp hfind u hu
          simp [hedge] at hx
        | some u2 =>
          have hmem := List.mem_of_find?_eq_some hfind
          have hedge2 : (u2, t) ∈ g.edges := by
            have hx := List.find?_some hfind
            simpa using hx
          obtain ⟨⟨hh, hl, hc⟩, hlen⟩ := ih u2 hmem
          simp only [buildPath, if_neg hk, hfind]
          have hne : buildPath g s k u2 ≠ [] := by
            intro hx
            rw [hx] at hh
            simp at hh
          refine ⟨⟨?_, ?_, ?_⟩, ?_⟩
          · cases hp : buildPath g s k u2 with
            | nil => exact absurd hp hne
            | cons a p' =>
              rw [hp] at hh
              simpa using hh
          · exact List.getLast?_concat _
          · rw [List.chain'_append]
            refine ⟨hc, List.chain'_singleton t, ?_⟩
            intro x hx y hy
            rw [hl] at hx
            obtain rfl : u2 = x := by simpa using hx
            obtain rfl : t = y := by simpa using hy
            exact hedge2
          · rw [List.length_append]
            simp
            omega

theorem walk_mem_levels (g : DiGraph) (s : RoadSegmentNode) :
    ∀ (l : List RoadSegmentNode) (t : RoadSegmentNode),
      IsTravelPath g s t l → t ∈ levels g s (l.length - 1) := by
  intro l
  induction l using List.reverseRecOn with
  | nil =>
    intro t h
    simp [IsTravelPath] at h
  | append_singleton l a ih =>
    intro t h
    obtain ⟨hh, hl, hc⟩ := h
    rw [List.getLast?_concat] at hl
    obtain rfl : a = t := by simpa using hl
    cases l with
    | nil =>
      obtain rfl : a = s := by simpa using hh
      simp [levels]
    | cons b l' =>
      have hh' : (b :: l').head? = some s := by simpa using hh
      rw [List.chain'_append] at hc
      obtain ⟨hc1, -, hlink⟩ := hc
      have hglne : (b :: l') ≠ [] := by simp
      have hgl : (b :: l').getLast? = some ((b :: l').getLast hglne) :=
        List.getLast?_eq_getLast _ hglne
      have hihm : (b :: l').getLast hglne ∈ levels g s ((b :: l').length - 1) :=
        ih _ ⟨hh', hgl, hc1⟩
      have hedge : ((b :: l').getLast hglne, a) ∈ g.edges := by
        refine hlink _ ?_ a ?_
        · rw [hgl]
          simp
        · simp
      have hgoal : a ∈ levels g s (l'.length + 1) := by
        have : a ∈ expandV g (levels g s l'.length) := by
          rw [mem_expandV]
          refine Or.inr ⟨(b :: l').getLast hglne, ?_, hedge⟩
          simpa using hihm
        exact this
      have hlen : (b :: l' ++ [a]).length - 1 = l'.length + 1 := by simp
      rw [hlen]
      exact hgoal

theorem firstHitAux_some (g : DiGraph) (s t : RoadSegmentNode) :
    ∀ (fuel k0 k : Nat), firstHitAux g s t k0 fuel = some k →
      t ∈ levels g s k ∧ k0 ≤ k ∧
        ∀ j, k0 ≤ j → j < k → t ∉ levels g s j := by
  intro fuel
  induction fuel with
  | zero =>
    intro k0 k h
    simp [firstHitAux] at h
  | succ fuel ih =>
    intro k0 k h
    simp only [firstHitAux] at h
    split_ifs at h with hmem
    · obtain rfl : k0 = k := by simpa using h
      exact ⟨hmem, le_refl _, fun j hj1 hj2 => absurd hj1 (by omega)⟩
    · obtain ⟨h1, h2, h3⟩ := ih (k0+1) k h
      refine ⟨h1, by omega, fun j hj1 hj2 => ?_⟩
      rcases eq_or_lt_of_le hj1 with rfl | hlt
      · exact hmem
      · exact h3 j (by omega) hj2

theorem firstHitAux_none (g : DiGraph) (s t : RoadSegmentNode) :
    ∀ (fuel k0 : Nat), firstHitAux g s t k0 fuel = none →
      ∀ j, k0 ≤ j → j < k0 + fuel → t ∉ levels g s j := by
  intro fuel
  induction fuel with
  | zero =>
    intro k0 h j hj1 hj2
    omega
  | succ fuel ih =>
    intro k0 h j hj1 hj2
    simp only [firstHitAux] at h
    split_ifs at h with hmem
    rcases eq_or_lt_of_le hj1 with rfl | hlt
    · exact hmem
    · exact ih (k0+1) h j (by omega) (by omega)

/-- C7: `shortest_path` returns a minimum-hop ordered path when both
endpoints are present and the target is reachable; fails with
UnknownNode when an endpoint is absent; fails with NoPathFound when both
endpoints are present but the target is unreachable. -/
theorem claim_C7 (tg : TravelGraph) (s t : RoadSegmentNode) :
    (¬(s ∈ tg.G.nodes ∧ t ∈ tg.G.nodes) →
      tg.shortest_path s t = .error .UnknownNode) ∧
    (s ∈ tg.G.nodes → t ∈ tg.G.nodes → (∃ l, IsTravelPath tg.G s t l) →
      ∃ l, tg.shortest_path s t = .ok l ∧ IsTravelPath tg.G s t l ∧
        ∀ l2, IsTravelPath tg.G s t l2 → l.length ≤ l2.length) ∧
    (s ∈ tg.G.nodes → t ∈ tg.G.nodes → ¬(∃ l, IsTravelPath tg.G s t l) →
      tg.shortest_path s t = .error .NoPathFound) := by
  refine ⟨?_, ?_, ?_⟩
  · intro h
    unfold TravelGraph.shortest_path nxShortestPath
    rw [if_neg h]
  · rintro hs ht ⟨l0, hl0⟩
    have hmem0 : t ∈ levels tg.G s (l0.length - 1) :=
      walk_mem_levels tg.G s l0 t hl0
    have hmemN : t ∈ levels tg.G s (tg.G.edges.length + 1) :=
      levels_subset_stable tg.G s _ t hmem0
    cases hfh : firstHitAux tg.G s t 0 (tg.G.edges.length + 2) with
    | none =>
      exact absurd hmemN
        (firstHitAux_none tg.G s t _ 0 hfh (tg.G.edges.length + 1)
          (by omega) (by omega))
    | some k =>
      obtain ⟨hk, -, hmin⟩ := firstHitAux_some tg.G s t _ 0 k hfh
      obtain ⟨hpath, hlen⟩ := buildPath_spec tg.G s k t hk
      refine ⟨buildPath tg.G s k t, ?_, hpath, ?_⟩
      · unfold TravelGraph.shortest_path nxShortestPath
        rw [if_pos ⟨hs, ht⟩, hfh]
      · intro l2 hl2
        have hmem2 := walk_mem_levels tg.G s l2 t hl2
        have hne2 : l2 ≠ [] := by
          intro hx
          rw [hx] at hl2
          simp [IsTravelPath] at hl2
        have hlen2 : 1 ≤ l2.length := List.length_pos.mpr hne2
        by_cases hcmp : l2.length - 1 < k
        · exact absurd hmem2 (hmin _ (by omega) hcmp)
        · omega
  · intro hs ht hnone
    unfold TravelGraph.shortest_path nxShortestPath
    rw [if_pos ⟨hs, ht⟩]
    cases hfh : firstHitAux tg.G s t 0 (tg.G.edges.length + 2) with
    | none => rfl
    | some k =>
      exact absurd ⟨buildPath tg.G s k t,
        (buildPath_spec tg.G s k t
          (firstHitAux_some tg.G s t _ 0 k hfh).1).1⟩ hnone

theorem claim_C7_witness :
    ∃ l, (TravelGraph.mk ⟨[⟨(0, 0), .UP, .ENTER⟩], []⟩ fun _ => none).shortest_path
        ⟨(0, 0), .UP, .ENTER⟩ ⟨(0, 0), .UP, .ENTER⟩ = .ok l ∧
      IsTravelPath (TravelGraph.mk ⟨[⟨(0, 0), .UP, .ENTER⟩], []⟩ fun _ => none).G
        ⟨(0, 0), .UP, .ENTER⟩ ⟨(0, 0), .UP, .ENTER⟩ l ∧
      ∀ l2, IsTravelPath
          (TravelGraph.mk ⟨[⟨(0, 0), .UP, .ENTER⟩], []⟩ fun _ => none).G
          ⟨(0, 0), .UP, .ENTER⟩ ⟨(0, 0), .UP, .ENTER⟩ l2 →
        l.length ≤ l2.length :=
  (claim_C7 (TravelGraph.mk ⟨[⟨(0, 0), .UP, .ENTER⟩], []⟩ fun _ => none)
      ⟨(0, 0), .UP, .ENTER⟩ ⟨(0, 0), .UP, .ENTER⟩).2.1
    (by simp) (by simp)
    ⟨[⟨(0, 0), .UP, .ENTER⟩], rfl, rfl, List.chain'_singleton _⟩

/-! ## The reachable-state invariant (claims C1, C2, C9) -/

theorem opposite_opposite (d : Direction) : d.opposite.opposite = d := by
  cases d <;> rfl

theorem nbrIdx_opposite (p : Int × Int) (d : Direction) :
    nbrIdx (nbrIdx p d) d.opposite = p := by
  cases d <;> simp [nbrIdx, Direction.opposite, Prod.ext_iff] <;> omega

theorem nbrIdx_ne_self (p : Int × Int) (d : Direction) : nbrIdx p d ≠ p := by
  cases d <;> simp [nbrIdx, Prod.ext_iff] <;> omega

theorem nbrIdx_inj (p : Int × Int) (d1 d2 : Direction)
    (h : nbrIdx p d1 = nbrIdx p d2) : d1 = d2 := by
  cases d1 <;> cases d2 <;> simp_all [nbrIdx, Prod.ext_iff] <;> omega

theorem nbrIdx_eq_comm (p q : Int × Int) (d : Direction)
    (h : nbrIdx p d = q) : nbrIdx q d.opposite = p := by
  rw [← h, nbrIdx_opposite]

theorem segment_directions_nodup (t : TileType) : t.segment_directions.Nodup := by
  revert t; decide

theorem twoLe_length_of_mem {α : Type} {l : List α} {a b : α}
    (ha : a ∈ l) (hb : b ∈ l) (hne : a ≠ b) : 2 ≤ l.length := by
  cases l with
  | nil => simp at ha
  | cons x xs =>
    cases xs with
    | nil =>
      simp at ha hb
      exact absurd (ha.trans hb.symm) hne
    | cons y ys =>
      simp only [List.length_cons]
      omega

theorem eq_singleton_of_nodup_mem {α : Type} {l : List α} {a : α}
    (hn : l.Nodup) (hm : ∀ x, x ∈ l ↔ x = a) : l = [a] := by
  cases l with
  | nil =>
    have := (hm a).mpr rfl
    simp at this
  | cons x xs =>
    have hx : x = a := (hm x).mp (by simp)
    subst hx
    cases xs with
    | nil => rfl
    | cons y ys =>
      have hy : y = x := (hm y).mp (by simp)
      subst hy
      simp at hn

theorem length_eq_of_nodup_mem_iff {α : Type} [DecidableEq α] {l1 l2 : List α}
    (h1 : l1.Nodup) (h2 : l2.Nodup) (hm : ∀ x, x ∈ l1 ↔ x ∈ l2) :
    l1.length = l2.length := by
  have hA : l1.toFinset.card = l1.length := List.toFinset_card_of_nodup h1
  have hB : l2.toFinset.card = l2.length := List.toFinset_card_of_nodup h2
  have hC : l1.toFinset = l2.toFinset := by
    ext x
    simp only [List.mem_toFinset]
    exact hm x
  have hD : l1.toFinset.card = l2.toFinset.card := by rw [hC]
  omega

theorem maskB_iff_placed (g : TileGrid)
    (hoob : ∀ r c : Int,
      ¬(0 ≤ r ∧ r < (g.h : Int) ∧ 0 ≤ c ∧ c < (g.w : Int)) →
      g.grid r c = .EMPTY)
    (r c : Int) (d : Direction) :
    g.maskB r c d = true ↔
      g.grid (nbrIdx (r, c) d).1 (nbrIdx (r, c) d).2 ≠ .EMPTY := by
  cases d <;>
    · simp only [TileGrid.maskB, nbrIdx, decide_eq_true_eq]
      constructor
      · exact fun h => h.2
      · intro h
        refine ⟨?_, h⟩
        by_contra hb
        exact h (hoob _ _ (by omega))

theorem shape_segments_iff (g : TileGrid) (r c : Int)
    (hsh : g.evaluate_tile_type r c false = some (g.grid r c))
    (hne : g.grid r c ≠ .EMPTY) (d : Direction) :
    d ∈ (g.grid r c).segment_directions ↔ g.maskB r c d = true := by
  obtain ⟨t, ht, -, hdirs, -, -⟩ := evaluate_spec g r c false (Or.inr hne)
  rw [hsh] at ht
  obtain rfl : g.grid r c = t := by
    injection ht with h
  exact hdirs d

theorem evaluate_false_eq_true_of_ne (g : TileGrid) (r c : Int)
    (hne : g.grid r c ≠ .EMPTY) :
    g.evaluate_tile_type r c false = g.evaluate_tile_type r c true := by
  rw [evaluate_eq_classify g r c false (Or.inr hne),
    evaluate_eq_classify g r c true (Or.inl rfl)]

theorem add_segment_nodes_r (i : TravelIntersection) (d : Direction) :
    (i.add_segment_nodes d).r = i.r := by
  unfold TravelIntersection.add_segment_nodes
  split_ifs <;> rfl

theorem add_segment_nodes_c (i : TravelIntersection) (d : Direction) :
    (i.add_segment_nodes d).c = i.c := by
  unfold TravelIntersection.add_segment_nodes
  split_ifs <;> rfl

theorem mem_add_segment_nodes (i : TravelIntersection) (d d' : Direction) :
    d' ∈ (i.add_segment_nodes d).dirs ↔ d' = d ∨ d' ∈ i.dirs := by
  unfold TravelIntersection.add_segment_nodes
  split_ifs with h
  · constructor
    · exact Or.inr
    · rintro (rfl | hx)
      · exact h
      · exact hx
  · simp [or_comm]

theorem add_segment_nodes_nodup (i : TravelIntersection) (d : Direction)
    (h : i.dirs.Nodup) : (i.add_segment_nodes d).dirs.Nodup := by
  unfold TravelIntersection.add_segment_nodes
  split_ifs with hm
  · exact h
  · simp [List.nodup_append, h, hm]

theorem init_dirs (r c : Int) (tt : TileType) :
    TravelIntersection.init r c tt = ⟨r, c, tt.segment_directions⟩ := by
  have haux : ∀ (m l : List Direction), (l ++ m).Nodup →
      (m.foldl (fun i d => i.add_segment_nodes d)
        (⟨r, c, l⟩ : TravelIntersection)) = ⟨r, c, l ++ m⟩ := by
    intro m
    induction m with
    | nil => intro l _; simp
    | cons d m ih =>
      intro l hnd
      have hdl : d ∉ l := by
        intro hx
        rw [List.nodup_append] at hnd
        exact hnd.2.2 hx (by simp)
      rw [List.foldl_cons]
      have hstep : (⟨r, c, l⟩ : TravelIntersection).add_segment_nodes d =
          ⟨r, c, l ++ [d]⟩ := by
        unfold TravelIntersection.add_segment_nodes
        rw [if_neg hdl]
      rw [hstep]
      have := ih (l ++ [d]) (by simpa using hnd)
      simpa using this
  have h := haux tt.segment_directions [] (by simpa using segment_directions_nodup tt)
  simpa [TravelIntersection.init] using h

/-- The set of self-connection candidates `_update` clears: one
ENTER(d)→EXIT(d) pair per current segment. -/
def uturnEdge (i : TravelIntersection)
    (x : RoadSegmentNode × RoadSegmentNode) : Prop :=
  ∃ d ∈ i.dirs, x = (i.enterNode d, i.exitNode d)

/-- The edges `_intraconnect_nodes` produces for an intersection: a
single U-turn when there is exactly one segment, else all ENTER→EXIT
pairs between distinct segments. -/
def intraEdge (i : TravelIntersection)
    (x : RoadSegmentNode × RoadSegmentNode) : Prop :=
  (∃ d, i.dirs = [d] ∧ x = (i.enterNode d, i.exitNode d)) ∨
    (i.dirs.length ≠ 1 ∧
      ∃ d1 ∈ i.dirs, ∃ d2 ∈ i.dirs, d2 ≠ d1 ∧
        x = (i.enterNode d1, i.exitNode d2))

theorem intraEdge_tile (i : TravelIntersection)
    (x : RoadSegmentNode × RoadSegmentNode) (h : intraEdge i x) :
    x.1.tile_index = (i.r, i.c) ∧ x.2.tile_index = (i.r, i.c) := by
  rcases h with ⟨d, -, rfl⟩ | ⟨-, d1, -, d2, -, -, rfl⟩ <;> exact ⟨rfl, rfl⟩

theorem uturnEdge_tile (i : TravelIntersection)
    (x : RoadSegmentNode × RoadSegmentNode) (h : uturnEdge i x) :
    x.1.tile_index = (i.r, i.c) ∧ x.2.tile_index = (i.r, i.c) := by
  rcases h with ⟨d, -, rfl⟩
  exact ⟨rfl, rfl⟩

theorem mem_foldl_exit (en : RoadSegmentNode) (exs : List RoadSegmentNode) :
    ∀ (G : DiGraph) (x : RoadSegmentNode × RoadSegmentNode),
      x ∈ (exs.foldl
        (fun G2 ex => if ex.dir = en.dir then G2 else G2.add_edge en ex)
        G).edges ↔
        x ∈ G.edges ∨ ∃ ex ∈ exs, ex.dir ≠ en.dir ∧ x = (en, ex) := by
  induction exs with
  | nil => simp
  | cons e exs ih =>
    intro G x
    rw [List.foldl_cons]
    by_cases hd : e.dir = en.dir
    · rw [if_pos hd, ih]
      constructor
      · rintro (h | ⟨ex, hex, hne, rfl⟩)
        · exact Or.inl h
        · exact Or.inr ⟨ex, List.mem_cons_of_mem e hex, hne, rfl⟩
      · rintro (h | ⟨ex, hx, hne, rfl⟩)
        · exact Or.inl h
        · rcases List.mem_cons.mp hx with rfl | hex
          · exact absurd hd hne
          · exact Or.inr ⟨ex, hex, hne, rfl⟩
    · rw [if_neg hd, ih]
      constructor
      · rintro (h | ⟨ex, hex, hne, rfl⟩)
        · rcases (add_edge_edges G en e x).mp h with rfl | h2
          · exact Or.inr ⟨e, by simp, hd, rfl⟩
          · exact Or.inl h2
        · exact Or.inr ⟨ex, List.mem_cons_of_mem e hex, hne, rfl⟩
      · rintro (h | ⟨ex, hx, hne, rfl⟩)
        · exact Or.inl ((add_edge_edges G en e x).mpr (Or.inr h))
        · rcases List.mem_cons.mp hx with rfl | hex
          · exact Or.inl ((add_edge_edges G en ex (en, ex)).mpr (Or.inl rfl))
          · exact Or.inr ⟨ex, hex, hne, rfl⟩

theorem mem_foldl_enter (i : TravelIntersection)
    (ens : List RoadSegmentNode) :
    ∀ (G : DiGraph) (x : RoadSegmentNode × RoadSegmentNode),
      x ∈ (ens.foldl
        (fun G2 en =>
          i.exit_nodes.foldl
            (fun G3 ex => if ex.dir = en.dir then G3 else G3.add_edge en ex)
            G2)
        G).edges ↔
        x ∈ G.edges ∨
          ∃ en ∈ ens, ∃ ex ∈ i.exit_nodes, ex.dir ≠ en.dir ∧ x = (en, ex) := by
  induction ens with
  | nil => simp
  | cons en ens ih =>
    intro G x
    rw [List.foldl_cons, ih, mem_foldl_exit]
    constructor
    · rintro ((h | ⟨ex, hex, hne, rfl⟩) | ⟨en2, hen2, ex, hex, hne, rfl⟩)
      · exact Or.inl h
      · exact Or.inr ⟨en, by simp, ex, hex, hne, rfl⟩
      · exact Or.inr ⟨en2, List.mem_cons_of_mem en hen2, ex, hex, hne, rfl⟩
    · rintro (h | ⟨en2, hen2, ex, hex, hne, rfl⟩)
      · exact Or.inl (Or.inl h)
      · rcases List.mem_cons.mp hen2 with rfl | hen3
        · exact Or.inl (Or.inr ⟨ex, hex, hne, rfl⟩)
        · exact Or.inr ⟨en2, hen3, ex, hex, hne, rfl⟩

theorem intraconnect_mem (G : DiGraph) (i : TravelIntersection)
    (x : RoadSegmentNode × RoadSegmentNode) :
    x ∈ (intraconnect_nodes G i).edges ↔ x ∈ G.edges ∨ intraEdge i x := by
  obtain ⟨ir, ic, dirs⟩ := i
  cases dirs with
  | nil =>
    simp [intraconnect_nodes, TravelIntersection.enter_nodes, intraEdge]
  | cons d tail =>
    cases tail with
    | nil =>
      show x ∈ (G.add_edge _ _).edges ↔ _
      rw [add_edge_edges]
      constructor
      · rintro (rfl | h)
        · exact Or.inr (Or.inl ⟨d, rfl, rfl⟩)
        · exact Or.inl h
      · rintro (h | (⟨d2, hd2, rfl⟩ | ⟨hlen, -⟩))
        · exact Or.inr h
        · obtain rfl : d2 = d := by
            injection hd2 with h1 _
            exact h1.symm
          exact Or.inl rfl
        · exact absurd rfl hlen
    | cons d2 tail2 =>
      show x ∈ ((TravelIntersection.enter_nodes _).foldl _ G).edges ↔ _
      rw [mem_foldl_enter]
      have htr : (∃ en ∈ (TravelIntersection.mk ir ic (d :: d2 :: tail2)).enter_nodes,
          ∃ ex ∈ (TravelIntersection.mk ir ic (d :: d2 :: tail2)).exit_nodes,
            ex.dir ≠ en.dir ∧ x = (en, ex)) ↔
          (∃ d1 ∈ (d :: d2 :: tail2), ∃ d3 ∈ (d :: d2 :: tail2), d3 ≠ d1 ∧
            x = ((TravelIntersection.mk ir ic (d :: d2 :: tail2)).enterNode d1,
              (TravelIntersection.mk ir ic (d :: d2 :: tail2)).exitNode d3)) := by
        constructor
        · rintro ⟨en, hen, ex, hex, hne, rfl⟩
          obtain ⟨da, hda, rfl⟩ := List.mem_map.mp hen
          obtain ⟨db, hdb, rfl⟩ := List.mem_map.mp hex
          exact ⟨da, hda, db, hdb, hne, rfl⟩
        · rintro ⟨d1, hd1, d3, hd3, hne, rfl⟩
          exact ⟨_, List.mem_map.mpr ⟨d1, hd1, rfl⟩,
            _, List.mem_map.mpr ⟨d3, hd3, rfl⟩, hne, rfl⟩
      rw [htr]
      unfold intraEdge
      constructor
      · rintro (h | h)
        · exact Or.inl h
        · exact Or.inr (Or.inr ⟨by simp, h⟩)
      · rintro (h | (⟨d4, hd4, -⟩ | ⟨-, h⟩))
        · exact Or.inl h
        · simp at hd4
        · exact Or.inr h

theorem removeFold_mem (i : TravelIntersection) :
    ∀ (L : List Direction) (G : DiGraph)
      (x : RoadSegmentNode × RoadSegmentNode),
      x ∈ (L.foldl
        (fun G2 d => G2.remove_edge_try (i.enterNode d) (i.exitNode d))
        G).edges ↔
        x ∈ G.edges ∧ ∀ d ∈ L, x ≠ (i.enterNode d, i.exitNode d) := by
  intro L
  induction L with
  | nil => simp
  | cons d L ih =>
    intro G x
    rw [List.foldl_cons, ih, remove_edge_try_edges]
    constructor
    · rintro ⟨⟨h1, h2⟩, h3⟩
      refine ⟨h1, fun d2 hd2 => ?_⟩
      rcases List.mem_cons.mp hd2 with rfl | hd3
      · exact h2
      · exact h3 d2 hd3
    · rintro ⟨h1, h2⟩
      exact ⟨⟨h1, h2 d (by simp)⟩, fun d2 hd2 => h2 d2 (List.mem_cons_of_mem d hd2)⟩

theorem update_mem (G : DiGraph) (i : TravelIntersection)
    (x : RoadSegmentNode × RoadSegmentNode) :
    x ∈ (update_intersection_intraconnected_edges G i).edges ↔
      (x ∈ G.edges ∧ ¬uturnEdge i x) ∨ intraEdge i x := by
  unfold update_intersection_intraconnected_edges
  rw [intraconnect_mem, removeFold_mem]
  have hut : (∀ d ∈ i.dirs, x ≠ (i.enterNode d, i.exitNode d)) ↔ ¬uturnEdge i x := by
    unfold uturnEdge
    push_neg
    rfl
  rw [hut]

theorem update_mem_frame (G : DiGraph) (i : TravelIntersection)
    (x : RoadSegmentNode × RoadSegmentNode)
    (h : x.1.tile_index ≠ (i.r, i.c)) :
    x ∈ (update_intersection_intraconnected_edges G i).edges ↔ x ∈ G.edges := by
  rw [update_mem]
  constructor
  · rintro (⟨h1, -⟩ | h2)
    · exact h1
    · exact absurd (intraEdge_tile i x h2).1 h
  · intro hx
    exact Or.inl ⟨hx, fun hut => h (uturnEdge_tile i x hut).1⟩

theorem loopFold_register_spec :
    ∀ (L : List (Direction × (Int × Int) × TileType))
      (G0 : DiGraph) (inters0 : (Int × Int) → Option TravelIntersection),
      (∀ e ∈ L, (inters0 e.2.1).isSome = true) →
      (∀ e ∈ L, ∀ i0, inters0 e.2.1 = some i0 →
        i0.r = e.2.1.1 ∧ i0.c = e.2.1.2) →
      L.Pairwise (fun a b => a.2.1 ≠ b.2.1) →
      ∃ Gout intersOut,
        loopFold registerNbrStep L (G0, inters0) = some (Gout, intersOut) ∧
        (∀ q, (∀ e ∈ L, e.2.1 ≠ q) → intersOut q = inters0 q) ∧
        (∀ e ∈ L, ∀ i0, inters0 e.2.1 = some i0 →
          intersOut e.2.1 = some (i0.add_segment_nodes e.1.opposite)) ∧
        (∀ x : RoadSegmentNode × RoadSegmentNode,
          (∀ e ∈ L, x.1.tile_index ≠ e.2.1) →
          (x ∈ Gout.edges ↔ x ∈ G0.edges)) ∧
        (∀ e ∈ L, ∀ i0, inters0 e.2.1 = some i0 →
          ∀ x : RoadSegmentNode × RoadSegmentNode, x.1.tile_index = e.2.1 →
            (x ∈ Gout.edges ↔
              ((x ∈ G0.edges ∧
                  ¬uturnEdge (i0.add_segment_nodes e.1.opposite) x) ∨
                intraEdge (i0.add_segment_nodes e.1.opposite) x))) := by
  intro L
  induction L with
  | nil =>
    intro G0 inters0 _ _ _
    exact ⟨G0, inters0, rfl, fun q _ => rfl, fun e he => absurd he (by simp),
      fun x _ => Iff.rfl, fun e he => absurd he (by simp)⟩
  | cons e L ih =>
    intro G0 inters0 hsome hrc hpw
    obtain ⟨i0, hi0⟩ :=
      Option.isSome_iff_exists.mp (hsome e (by simp))
    obtain ⟨hi0r, hi0c⟩ := hrc e (by simp) i0 hi0
    have hpwh : ∀ e2 ∈ L, e.2.1 ≠ e2.2.1 :=
      fun e2 he2 => (List.pairwise_cons.mp hpw).1 e2 he2
    have hpwt : L.Pairwise (fun a b => a.2.1 ≠ b.2.1) :=
      (List.pairwise_cons.mp hpw).2
    set i' := i0.add_segment_nodes e.1.opposite with hi'
    set G1 := update_intersection_intraconnected_edges G0 i' with hG1
    set inters1 : (Int × Int) → Option TravelIntersection :=
      fun p => if p = e.2.1 then some i' else inters0 p with hinters1
    have hstep : registerNbrStep (G0, inters0) e = some (G1, inters1) := by
      unfold registerNbrStep
      simp only [hi0]
      rfl
    have hsome1 : ∀ e2 ∈ L, (inters1 e2.2.1).isSome = true := by
      intro e2 he2
      rw [hinters1]
      simp only
      rw [if_neg (fun hx => hpwh e2 he2 hx.symm)]
      exact hsome e2 (List.mem_cons_of_mem e he2)
    have hrc1 : ∀ e2 ∈ L, ∀ i2, inters1 e2.2.1 = some i2 →
        i2.r = e2.2.1.1 ∧ i2.c = e2.2.1.2 := by
      intro e2 he2 i2 hi2
      rw [hinters1] at hi2
      simp only at hi2
      rw [if_neg (fun hx => hpwh e2 he2 hx.symm)] at hi2
      exact hrc e2 (List.mem_cons_of_mem e he2) i2 hi2
    obtain ⟨Gout, intersOut, heq, hfI, heI, hfE, heE⟩ :=
      ih G1 inters1 hsome1 hrc1 hpwt
    have hIrc : (i'.r, i'.c) = e.2.1 := by
      rw [hi', add_segment_nodes_r, add_segment_nodes_c, hi0r, hi0c]
    refine ⟨Gout, intersOut, ?_, ?_, ?_, ?_, ?_⟩
    · rw [loopFold_cons, hstep, Option.some_bind]
      exact heq
    · intro q hq
      have h1 : intersOut q = inters1 q :=
        hfI q (fun e2 he2 => hq e2 (List.mem_cons_of_mem e he2))
      rw [h1, hinters1]
      simp only
      rw [if_neg (fun hx => hq e (by simp) hx.symm)]
    · intro e2 he2 i2 hi2
      rcases List.mem_cons.mp he2 with rfl | he3
      · have h1 : intersOut e2.2.1 = inters1 e2.2.1 :=
          hfI e2.2.1 (fun e3 he3 => (hpwh e3 he3).symm)
        rw [h1, hinters1]
        simp only
        split_ifs with hx
        · obtain rfl : i0 = i2 := by
            rw [hi0] at hi2
            injection hi2
          rfl
        · exact absurd trivial hx
      · have h1 : inters1 e2.2.1 = inters0 e2.2.1 := by
          rw [hinters1]
          simp only
          rw [if_neg (fun hx => hpwh e2 he3 hx.symm)]
        exact heI e2 he3 i2 (h1.trans hi2)
    · intro x hx
      have h1 : x ∈ Gout.edges ↔ x ∈ G1.edges :=
        hfE x (fun e2 he2 => hx e2 (List.mem_cons_of_mem e he2))
      rw [h1, hG1, update_mem_frame G0 i' x (by rw [hIrc]; exact hx e (by simp))]
    · intro e2 he2 i2 hi2 x hx
      rcases List.mem_cons.mp he2 with rfl | he3
      · obtain rfl : i0 = i2 := by
          rw [hi0] at hi2
          injection hi2
        have h1 : x ∈ Gout.edges ↔ x ∈ G1.edges :=
          hfE x (fun e3 he3 => by rw [hx]; exact hpwh e3 he3)
        rw [h1, hG1, update_mem]
      · have h1 : inters1 e2.2.1 = inters0 e2.2.1 := by
          rw [hinters1]
          simp only
          rw [if_neg (fun hy => hpwh e2 he3 hy.symm)]
        have h2 := heE e2 he3 i2 (h1.trans hi2) x hx
        have h3 : x ∈ G1.edges ↔ x ∈ G0.edges := by
          rw [hG1]
          exact update_mem_frame G0 i' x
            (by rw [hIrc, hx]; exact (hpwh e2 he3).symm)
        rw [h2, h3]

theorem loopFold_cross_spec (insct : TravelIntersection)
    (inters : (Int × Int) → Option TravelIntersection) :
    ∀ (L : List (Direction × (Int × Int) × TileType)),
      (∀ e ∈ L, ∃ i2, inters e.2.1 = some i2 ∧ e.1 ∈ insct.dirs ∧
        e.1.opposite ∈ i2.dirs ∧ i2.r = e.2.1.1 ∧ i2.c = e.2.1.2) →
      ∀ G0 : DiGraph,
      ∃ Gfin, loopFold (crossEdgeStep insct inters) L G0 = some Gfin ∧
        ∀ x, x ∈ Gfin.edges ↔ x ∈ G0.edges ∨
          ∃ e ∈ L,
            x = (insct.exitNode e.1, ⟨e.2.1, e.1.opposite, .ENTER⟩) ∨
            x = (⟨e.2.1, e.1.opposite, .EXIT⟩, insct.enterNode e.1) := by
  intro L
  induction L with
  | nil =>
    intro _ G0
    exact ⟨G0, rfl, fun x => by simp⟩
  | cons e L ih =>
    intro hsucc G0
    obtain ⟨i2, hi2, hin, hopp, hir, hic⟩ := hsucc e (by simp)
    set G1 := (G0.add_edge (insct.exitNode e.1)
        (i2.enterNode e.1.opposite)).add_edge
        (i2.exitNode e.1.opposite) (insct.enterNode e.1) with hG1
    have hstep : crossEdgeStep insct inters G0 e = some G1 := by
      unfold crossEdgeStep
      rw [hi2, Option.some_bind]
      unfold TravelIntersection.get_nodes_for_segment
      rw [if_pos hin, Option.some_bind, if_pos hopp, Option.some_bind]
    obtain ⟨Gfin, heq, hmem⟩ := ih (fun e2 he2 => hsucc e2 (by simp [he2])) G1
    refine ⟨Gfin, ?_, ?_⟩
    · rw [loopFold_cons, hstep, Option.some_bind]
      exact heq
    · intro x
      rw [hmem x]
      have hn1 : i2.enterNode e.1.opposite = ⟨e.2.1, e.1.opposite, .ENTER⟩ := by
        unfold TravelIntersection.enterNode
        rw [hir, hic]
      have hn2 : i2.exitNode e.1.opposite = ⟨e.2.1, e.1.opposite, .EXIT⟩ := by
        unfold TravelIntersection.exitNode
        rw [hir, hic]
      rw [hG1]
      rw [add_edge_edges, add_edge_edges, hn1, hn2]
      constructor
      · rintro (h | h)
        · rcases h with rfl | (rfl | h2)
          · exact Or.inr ⟨e, by simp⟩
          · exact Or.inr ⟨e, by simp⟩
          · exact Or.inl h2
        · obtain ⟨e2, he2, hx⟩ := h
          exact Or.inr ⟨e2, List.mem_cons_of_mem e he2, hx⟩
      · rintro (h | ⟨e2, he2, hx⟩)
        · exact Or.inl (Or.inr (Or.inr h))
        · rcases List.mem_cons.mp he2 with rfl | he3
          · rcases hx with rfl | rfl
            · exact Or.inl (Or.inr (Or.inl rfl))
            · exact Or.inl (Or.inl rfl)
          · exact Or.inr ⟨e2, he3, hx⟩

/-- Grid-side invariant of reachable states: out-of-bounds cells are
EMPTY and every placed cell carries the classification of its own
neighbor mask. -/
structure GridInv (g : TileGrid) : Prop where
  oob : ∀ r c : Int,
    ¬(0 ≤ r ∧ r < (g.h : Int) ∧ 0 ≤ c ∧ c < (g.w : Int)) → g.grid r c = .EMPTY
  shape : ∀ r c : Int, g.grid r c ≠ .EMPTY →
    g.evaluate_tile_type r c false = some (g.grid r c)

/-- A crossing edge as claim C1 describes it: tile B adjacent to tile A
in direction `d`, an A.EXIT(d) → B.ENTER(opposite d) edge, both tiles
placed and both exposing the facing segments. -/
def CrossSpec (g : TileGrid) (u v : RoadSegmentNode) : Prop :=
  ∃ d : Direction, v.tile_index = nbrIdx u.tile_index d ∧
    u.dir = d ∧ u.node_type = .EXIT ∧
    v.dir = d.opposite ∧ v.node_type = .ENTER ∧
    g.grid u.tile_index.1 u.tile_index.2 ≠ .EMPTY ∧
    g.grid v.tile_index.1 v.tile_index.2 ≠ .EMPTY ∧
    d ∈ (g.grid u.tile_index.1 u.tile_index.2).segment_directions ∧
    d.opposite ∈ (g.grid v.tile_index.1 v.tile_index.2).segment_directions

/-- An intra-intersection edge as claim C2 describes it: within one
placed tile, a single U-turn when the tile has exactly one active
direction, else an ENTER→EXIT edge between two distinct active
directions. -/
def IntraSpec (g : TileGrid) (u v : RoadSegmentNode) : Prop :=
  v.tile_index = u.tile_index ∧
  g.grid u.tile_index.1 u.tile_index.2 ≠ .EMPTY ∧
  u.node_type = .ENTER ∧ v.node_type = .EXIT ∧
  (((g.grid u.tile_index.1 u.tile_index.2).segment_directions.length = 1 ∧
      u.dir ∈ (g.grid u.tile_index.1 u.tile_index.2).segment_directions ∧
      v.dir = u.dir) ∨
    (2 ≤ (g.grid u.tile_index.1 u.tile_index.2).segment_directions.length ∧
      u.dir ∈ (g.grid u.tile_index.1 u.tile_index.2).segment_directions ∧
      v.dir ∈ (g.grid u.tile_index.1 u.tile_index.2).segment_directions ∧
      v.dir ≠ u.dir))

/-- Graph-side invariant of reachable states, relative to the grid. -/
structure GraphInv (g : TileGrid) (tg : TravelGraph) : Prop where
  inter_iff : ∀ p : Int × Int,
    (tg.intersections p).isSome = true ↔ g.grid p.1 p.2 ≠ .EMPTY
  inter_rc : ∀ p i, tg.intersections p = some i → i.r = p.1 ∧ i.c = p.2
  inter_dirs : ∀ p i, tg.intersections p = some i →
    i.dirs.Nodup ∧ ∀ d, (d ∈ i.dirs ↔ d ∈ (g.grid p.1 p.2).segment_directions)
  cross : ∀ u v : RoadSegmentNode,
    ((u, v) ∈ tg.G.edges ∧ u.tile_index ≠ v.tile_index) ↔ CrossSpec g u v
  intra : ∀ u v : RoadSegmentNode,
    ((u, v) ∈ tg.G.edges ∧ u.tile_index = v.tile_index) ↔ IntraSpec g u v

theorem placed_segments_iff (g : TileGrid) (hg : GridInv g) (p : Int × Int)
    (hp : g.grid p.1 p.2 ≠ .EMPTY) (d : Direction) :
    d ∈ (g.grid p.1 p.2).segment_directions ↔
      g.grid (nbrIdx p d).1 (nbrIdx p d).2 ≠ .EMPTY :=
  (shape_segments_iff g p.1 p.2 (hg.shape p.1 p.2 hp) hp d).trans
    (maskB_iff_placed g hg.oob p.1 p.2 d)

theorem node_ext (n : RoadSegmentNode) (p : Int × Int) (d : Direction)
    (ty : RoadNodeType) (h1 : n.tile_index = p) (h2 : n.dir = d)
    (h3 : n.node_type = ty) : n = ⟨p, d, ty⟩ := by
  cases n
  simp_all

theorem eq_singleton_of_length_one {α : Type} {l : List α} {a : α}
    (h1 : l.length = 1) (h2 : a ∈ l) : l = [a] := by
  cases l with
  | nil => simp at h2
  | cons x xs =>
    cases xs with
    | nil =>
      simp at h2
      rw [h2]
    | cons y ys => simp at h1

/-- Registering the intersection of a freshly placed tile preserves the
graph-side invariant, relative to the updated grid. -/
theorem register_preserves (gOld g4 : TileGrid) (tg : TravelGraph) (r c : Int)
    (hgraph : GraphInv gOld tg) (hgOld : GridInv gOld) (hg4 : GridInv g4)
    (hempOld : gOld.grid r c = .EMPTY)
    (hEmpRel : ∀ r' c', (g4.grid r' c' = .EMPTY) ↔
      (gOld.grid r' c' = .EMPTY ∧ ¬(r' = r ∧ c' = c))) :
    ∃ tg', tg.register_tile_intersection r c (g4.grid r c)
        (g4.get_neighbors r c) = some tg' ∧ GraphInv g4 tg' := by
  have hcplaced : g4.grid r c ≠ .EMPTY := fun hx =>
    ((hEmpRel r c).mp hx).2 ⟨rfl, rfl⟩
  have hplaced4 : ∀ p : Int × Int, g4.grid p.1 p.2 ≠ .EMPTY ↔
      (gOld.grid p.1 p.2 ≠ .EMPTY ∨ p = (r, c)) := by
    intro p
    rw [Prod.ext_iff]
    have h := hEmpRel p.1 p.2
    constructor
    · intro h4
      by_cases ho : gOld.grid p.1 p.2 = .EMPTY
      · right
        by_contra hq
        exact h4 (h.mpr ⟨ho, hq⟩)
      · exact Or.inl ho
    · rintro (ho | hpc) hx
      · exact ho (h.mp hx).1
      · exact (h.mp hx).2 hpc
  have hentry : ∀ e ∈ g4.get_neighbors r c, e.2.1 = nbrIdx (r, c) e.1 ∧
      g4.grid e.2.1.1 e.2.1.2 ≠ .EMPTY ∧ e.2.1 ≠ (r, c) ∧
      gOld.grid e.2.1.1 e.2.1.2 ≠ .EMPTY := by
    intro e he
    obtain ⟨hmask, hval⟩ := (mem_get_neighbors g4 r c e).mp he
    have hcoord : e.2.1 = nbrIdx (r, c) e.1 := by rw [hval]
    have hplac : g4.grid e.2.1.1 e.2.1.2 ≠ .EMPTY := by
      rw [hcoord]
      exact (maskB_iff_placed g4 hg4.oob r c e.1).mp hmask
    have hnec : e.2.1 ≠ (r, c) := by
      rw [hcoord]
      exact nbrIdx_ne_self (r, c) e.1
    refine ⟨hcoord, hplac, hnec, ?_⟩
    rcases (hplaced4 e.2.1).mp hplac with h | h
    · exact h
    · exact absurd h hnec
  have hlookup : ∀ e ∈ g4.get_neighbors r c,
      (tg.intersections e.2.1).isSome = true :=
    fun e he => (hgraph.inter_iff e.2.1).mpr (hentry e he).2.2.2
  have hpairw : (g4.get_neighbors r c).Pairwise (fun a b => a.2.1 ≠ b.2.1) := by
    refine List.Pairwise.imp_of_mem ?_ (get_neighbors_keys_pairwise g4 r c)
    intro a b ha hb hne heq
    exact hne (nbrIdx_inj (r, c) a.1 b.1
      (((hentry a ha).1.symm.trans heq).trans (hentry b hb).1))
  have huniq : ∀ e ∈ g4.get_neighbors r c, ∀ e2 ∈ g4.get_neighbors r c,
      e.2.1 = e2.2.1 → e = e2 := by
    intro e he e2 he2 hco
    by_contra hne
    have hsym : Symmetric
        (fun (a b : Direction × (Int × Int) × TileType) => a.2.1 ≠ b.2.1) :=
      fun a b hab => Ne.symm hab
    exact (hpairw.forall hsym he he2 hne) hco
  have hsegC : ∀ d, d ∈ (g4.grid r c).segment_directions ↔
      g4.grid (nbrIdx (r, c) d).1 (nbrIdx (r, c) d).2 ≠ .EMPTY :=
    fun d => placed_segments_iff g4 hg4 (r, c) hcplaced d
  have hentryDir : ∀ e ∈ g4.get_neighbors r c,
      e.1 ∈ (g4.grid r c).segment_directions := by
    intro e he
    rw [hsegC e.1]
    have h := (hentry e he).2.1
    rw [(hentry e he).1] at h
    exact h
  have hback : ∀ e ∈ g4.get_neighbors r c,
      nbrIdx e.2.1 e.1.opposite = (r, c) := by
    intro e he
    rw [(hentry e he).1]
    exact nbrIdx_opposite (r, c) e.1
  have hsegsEntry : ∀ e ∈ g4.get_neighbors r c, ∀ d,
      d ∈ (g4.grid e.2.1.1 e.2.1.2).segment_directions ↔
        (d ∈ (gOld.grid e.2.1.1 e.2.1.2).segment_directions ∨
          d = e.1.opposite) := by
    intro e he d
    rw [placed_segments_iff g4 hg4 e.2.1 (hentry e he).2.1 d,
      placed_segments_iff gOld hgOld e.2.1 (hentry e he).2.2.2 d,
      hplaced4 (nbrIdx e.2.1 d)]
    have hcent : nbrIdx e.2.1 d = (r, c) ↔ d = e.1.opposite := by
      constructor
      · intro hx
        exact nbrIdx_inj e.2.1 d e.1.opposite (hx.trans (hback e he).symm)
      · intro hx
        rw [hx]
        exact hback e he
    rw [hcent]
  have hsegsOther : ∀ p : Int × Int, gOld.grid p.1 p.2 ≠ .EMPTY →
      (∀ e ∈ g4.get_neighbors r c, p ≠ e.2.1) → ∀ d,
      (d ∈ (g4.grid p.1 p.2).segment_directions ↔
        d ∈ (gOld.grid p.1 p.2).segment_directions) := by
    intro p hpO hpnot d
    have hp4 : g4.grid p.1 p.2 ≠ .EMPTY := (hplaced4 p).mpr (Or.inl hpO)
    rw [placed_segments_iff g4 hg4 p hp4 d,
      placed_segments_iff gOld hgOld p hpO d, hplaced4 (nbrIdx p d)]
    constructor
    · rintro (h | hx)
      · exact h
      · exfalso
        have hpcoord : nbrIdx (r, c) d.opposite = p := nbrIdx_eq_comm p (r, c) d hx
        have hmask2 : g4.maskB r c d.opposite = true := by
          rw [maskB_iff_placed g4 hg4.oob r c d.opposite, hpcoord]
          exact hp4
        have hmem2 : (d.opposite, (nbrIdx (r, c) d.opposite,
            g4.grid (nbrIdx (r, c) d.opposite).1
              (nbrIdx (r, c) d.opposite).2)) ∈ g4.get_neighbors r c :=
          (mem_get_neighbors g4 r c _).mpr ⟨hmask2, rfl⟩
        exact hpnot _ hmem2 hpcoord.symm
    · exact fun h => Or.inl h
  obtain ⟨Gout, intersOut, hloop1, hfI, heI, hfE, heE⟩ :=
    loopFold_register_spec (g4.get_neighbors r c)
      (intraconnect_nodes tg.G ⟨r, c, (g4.grid r c).segment_directions⟩)
      tg.intersections hlookup
      (fun e he i0 hi0 => hgraph.inter_rc e.2.1 i0 hi0) hpairw
  have hcrossPre : ∀ e ∈ g4.get_neighbors r c, ∃ i2,
      intersOut e.2.1 = some i2 ∧
      e.1 ∈ (⟨r, c, (g4.grid r c).segment_directions⟩ :
        TravelIntersection).dirs ∧
      e.1.opposite ∈ i2.dirs ∧ i2.r = e.2.1.1 ∧ i2.c = e.2.1.2 := by
    intro e he
    obtain ⟨i0, hi0⟩ := Option.isSome_iff_exists.mp (hlookup e he)
    refine ⟨i0.add_segment_nodes e.1.opposite, heI e he i0 hi0,
      hentryDir e he, ?_, ?_, ?_⟩
    · rw [mem_add_segment_nodes]
      exact Or.inl rfl
    · rw [add_segment_nodes_r]
      exact (hgraph.inter_rc e.2.1 i0 hi0).1
    · rw [add_segment_nodes_c]
      exact (hgraph.inter_rc e.2.1 i0 hi0).2
  obtain ⟨Gfin, hloop2, hmemFin⟩ :=
    loopFold_cross_spec ⟨r, c, (g4.grid r c).segment_directions⟩ intersOut
      (g4.get_neighbors r c) hcrossPre Gout
  have hmemOut : ∀ x : RoadSegmentNode × RoadSegmentNode,
      x ∈ Gout.edges ↔
        ((x ∈ tg.G.edges ∧ ∀ e ∈ g4.get_neighbors r c, ∀ i0,
            tg.intersections e.2.1 = some i0 → x.1.tile_index = e.2.1 →
            ¬uturnEdge (i0.add_segment_nodes e.1.opposite) x) ∨
          intraEdge ⟨r, c, (g4.grid r c).segment_directions⟩ x ∨
          ∃ e ∈ g4.get_neighbors r c, ∃ i0,
            tg.intersections e.2.1 = some i0 ∧
            intraEdge (i0.add_segment_nodes e.1.opposite) x) := by
    intro x
    by_cases hx : ∃ e ∈ g4.get_neighbors r c, x.1.tile_index = e.2.1
    · obtain ⟨e, he, hte⟩ := hx
      obtain ⟨i0, hi0⟩ := Option.isSome_iff_exists.mp (hlookup e he)
      rw [heE e he i0 hi0 x hte, intraconnect_mem]
      have hinsNot : ¬intraEdge (⟨r, c, (g4.grid r c).segment_directions⟩ :
          TravelIntersection) x := by
        intro hI
        have h1 := (intraEdge_tile _ _ hI).1
        rw [hte] at h1
        exact (hentry e he).2.2.1 h1
      constructor
      · rintro (⟨hE1, hut⟩ | hintra)
        · rcases hE1 with hold | hins
          · left
            refine ⟨hold, ?_⟩
            intro e2 he2 i02 hi02 hte2
            obtain rfl : e = e2 := huniq e he e2 he2 (hte.symm.trans hte2)
            obtain rfl : i0 = i02 := by
              rw [hi0] at hi02
              injection hi02
            exact hut
          · exact absurd hins hinsNot
        · exact Or.inr (Or.inr ⟨e, he, i0, hi0, hintra⟩)
      · rintro (⟨hold, hutall⟩ | hins | ⟨e2, he2, i02, hi02, hintra⟩)
        · exact Or.inl ⟨Or.inl hold, hutall e he i0 hi0 hte⟩
        · exact absurd hins hinsNot
        · have ht2 : x.1.tile_index = e2.2.1 := by
            have h1 := (intraEdge_tile _ _ hintra).1
            rw [add_segment_nodes_r, add_segment_nodes_c,
              (hgraph.inter_rc e2.2.1 i02 hi02).1,
              (hgraph.inter_rc e2.2.1 i02 hi02).2] at h1
            exact h1
          obtain rfl : e = e2 := huniq e he e2 he2 (hte.symm.trans ht2)
          obtain rfl : i0 = i02 := by
            rw [hi0] at hi02
            injection hi02
          exact Or.inr hintra
    · push_neg at hx
      rw [hfE x hx, intraconnect_mem]
      constructor
      · rintro (hold | hins)
        · exact Or.inl ⟨hold, fun e he i0 hi0 hte => absurd hte (hx e he)⟩
        · exact Or.inr (Or.inl hins)
      · rintro (⟨hold, -⟩ | hins | ⟨e, he, i0, hi0, hintra⟩)
        · exact Or.inl hold
        · exact Or.inr hins
        · exfalso
          have h1 := (intraEdge_tile _ _ hintra).1
          rw [add_segment_nodes_r, add_segment_nodes_c,
            (hgraph.inter_rc e.2.1 i0 hi0).1,
            (hgraph.inter_rc e.2.1 i0 hi0).2] at h1
          exact hx e he h1
  have hIproj : ∀ (G : DiGraph) (f : (Int × Int) → Option TravelIntersection)
      (p : Int × Int), (TravelGraph.mk G f).intersections p = f p :=
    fun _ _ _ => rfl
  have hGproj : ∀ (G : DiGraph) (f : (Int × Int) → Option TravelIntersection),
      (TravelGraph.mk G f).G = G := fun _ _ => rfl
  refine ⟨⟨Gfin, fun p => if p = (r, c)
      then some (⟨r, c, (g4.grid r c).segment_directions⟩ : TravelIntersection)
      else intersOut p⟩, ?_, ?_, ?_, ?_, ?_, ?_⟩
  · unfold TravelGraph.register_tile_intersection
    simp only [init_dirs]
    rw [hloop1]
    simp only [Option.some_bind]
    rw [hloop2]
    simp only [Option.some_bind]
  · intro p
    simp only [hIproj]
    by_cases hp : p = (r, c)
    · subst hp
      rw [if_pos rfl]
      exact iff_of_true rfl hcplaced
    · rw [if_neg hp]
      by_cases hq : ∃ e ∈ g4.get_neighbors r c, e.2.1 = p
      · obtain ⟨e, he, hep⟩ := hq
        obtain ⟨i0, hi0⟩ := Option.isSome_iff_exists.mp (hlookup e he)
        rw [← hep, heI e he i0 hi0]
        exact iff_of_true rfl (hentry e he).2.1
      · push_neg at hq
        rw [hfI p (fun e he => hq e he), hgraph.inter_iff p]
        constructor
        · exact fun h => (hplaced4 p).mpr (Or.inl h)
        · intro h
          rcases (hplaced4 p).mp h with h2 | h2
          · exact h2
          · exact absurd h2 hp
  · intro p i hi
    simp only [hIproj] at hi
    by_cases hp : p = (r, c)
    · subst hp
      rw [if_pos rfl] at hi
      obtain rfl : (⟨r, c, (g4.grid r c).segment_directions⟩ :
          TravelIntersection) = i := by injection hi
      exact ⟨rfl, rfl⟩
    · rw [if_neg hp] at hi
      by_cases hq : ∃ e ∈ g4.get_neighbors r c, e.2.1 = p
      · obtain ⟨e, he, hep⟩ := hq
        obtain ⟨i0, hi0⟩ := Option.isSome_iff_exists.mp (hlookup e he)
        rw [← hep] at hi
        rw [heI e he i0 hi0] at hi
        obtain rfl : i0.add_segment_nodes e.1.opposite = i := by injection hi
        constructor
        · rw [add_segment_nodes_r, (hgraph.inter_rc e.2.1 i0 hi0).1, hep]
        · rw [add_segment_nodes_c, (hgraph.inter_rc e.2.1 i0 hi0).2, hep]
      · push_neg at hq
        rw [hfI p (fun e he => hq e he)] at hi
        exact hgraph.inter_rc p i hi
  · intro p i hi
    simp only [hIproj] at hi
    by_cases hp : p = (r, c)
    · subst hp
      rw [if_pos rfl] at hi
      obtain rfl : (⟨r, c, (g4.grid r c).segment_directions⟩ :
          TravelIntersection) = i := by injection hi
      exact ⟨segment_directions_nodup _, fun d => Iff.rfl⟩
    · rw [if_neg hp] at hi
      by_cases hq : ∃ e ∈ g4.get_neighbors r c, e.2.1 = p
      · obtain ⟨e, he, hep⟩ := hq
        obtain ⟨i0, hi0⟩ := Option.isSome_iff_exists.mp (hlookup e he)
        rw [← hep] at hi ⊢
        rw [heI e he i0 hi0] at hi
        obtain rfl : i0.add_segment_nodes e.1.opposite = i := by injection hi
        obtain ⟨hnd0, hdirs0⟩ := hgraph.inter_dirs e.2.1 i0 hi0
        refine ⟨add_segment_nodes_nodup i0 _ hnd0, fun d => ?_⟩
        rw [mem_add_segment_nodes, hdirs0 d, hsegsEntry e he d]
        tauto
      · push_neg at hq
        rw [hfI p (fun e he => hq e he)] at hi
        obtain ⟨hnd0, hdirs0⟩ := hgraph.inter_dirs p i hi
        have hpO : gOld.grid p.1 p.2 ≠ .EMPTY := by
          rw [← hgraph.inter_iff p, hi]
          rfl
        refine ⟨hnd0, fun d => ?_⟩
        rw [hdirs0 d,
          hsegsOther p hpO (fun e he => (hq e he).symm) d]
  · intro u v
    simp only [hGproj]
    constructor
    · rintro ⟨hmem, hneT⟩
      rcases (hmemFin (u, v)).mp hmem with hout | ⟨e, he, hadd⟩
      · rcases (hmemOut (u, v)).mp hout with ⟨hold, -⟩ | hins |
          ⟨e, he, i0, hi0, hintra⟩
        · obtain ⟨d, hvt, hud, hut, hvd, hvnt, hpu, hpv, -, -⟩ :=
            (hgraph.cross u v).mp ⟨hold, hneT⟩
          refine ⟨d, hvt, hud, hut, hvd, hvnt,
            (hplaced4 u.tile_index).mpr (Or.inl hpu),
            (hplaced4 v.tile_index).mpr (Or.inl hpv), ?_, ?_⟩
          · rw [placed_segments_iff g4 hg4 u.tile_index
              ((hplaced4 u.tile_index).mpr (Or.inl hpu)) d, ← hvt]
            exact (hplaced4 v.tile_index).mpr (Or.inl hpv)
          · rw [placed_segments_iff g4 hg4 v.tile_index
              ((hplaced4 v.tile_index).mpr (Or.inl hpv)) d.opposite,
              nbrIdx_eq_comm u.tile_index v.tile_index d hvt.symm]
            exact (hplaced4 u.tile_index).mpr (Or.inl hpu)
        · exfalso
          have h1 := intraEdge_tile _ _ hins
          exact hneT (h1.1.trans h1.2.symm)
        · exfalso
          have h1 := intraEdge_tile _ _ hintra
          exact hneT (h1.1.trans h1.2.symm)
      · have hpl := (hentry e he).2.1
        rcases hadd with hx | hx
        · injection hx with hu hv
          have hut2 : u.tile_index = (r, c) := by rw [hu] <;> rfl
          have hud2 : u.dir = e.1 := by rw [hu] <;> rfl
          have hunt : u.node_type = .EXIT := by rw [hu] <;> rfl
          have hvt2 : v.tile_index = e.2.1 := by rw [hv] <;> rfl
          have hvd2 : v.dir = e.1.opposite := by rw [hv] <;> rfl
          have hvnt : v.node_type = .ENTER := by rw [hv] <;> rfl
          refine ⟨e.1, ?_, hud2, hunt, hvd2, hvnt, ?_, ?_, ?_, ?_⟩
          · rw [hvt2, hut2]
            exact (hentry e he).1
          · rw [hut2]
            exact hcplaced
          · rw [hvt2]
            exact hpl
          · rw [hut2]
            exact hentryDir e he
          · rw [hvt2]
            exact (placed_segments_iff g4 hg4 e.2.1 hpl e.1.opposite).mpr
              (by rw [hback e he]; exact hcplaced)
        · injection hx with hu hv
          have hut2 : u.tile_index = e.2.1 := by rw [hu] <;> rfl
          have hud2 : u.dir = e.1.opposite := by rw [hu] <;> rfl
          have hunt : u.node_type = .EXIT := by rw [hu] <;> rfl
          have hvt2 : v.tile_index = (r, c) := by rw [hv] <;> rfl
          have hvd2 : v.dir = e.1 := by rw [hv] <;> rfl
          have hvnt : v.node_type = .ENTER := by rw [hv] <;> rfl
          refine ⟨e.1.opposite, ?_, hud2, hunt, ?_, hvnt, ?_, ?_, ?_, ?_⟩
          · rw [hvt2, hut2]
            exact (hback e he).symm
          · rw [hvd2, opposite_opposite]
          · rw [hut2]
            exact hpl
          · rw [hvt2]
            exact hcplaced
          · rw [hut2]
            exact (placed_segments_iff g4 hg4 e.2.1 hpl e.1.opposite).mpr
              (by rw [hback e he]; exact hcplaced)
          · rw [hvt2, opposite_opposite]
            exact hentryDir e he
    · rintro ⟨d, hvt, hud, hunt, hvd, hvnt, hpu, hpv, hsegu, hsegv⟩
      have hneT : u.tile_index ≠ v.tile_index := by
        rw [hvt]
        exact (nbrIdx_ne_self u.tile_index d).symm
      refine ⟨?_, hneT⟩
      rw [hmemFin (u, v)]
      by_cases hu : u.tile_index = (r, c)
      · right
        have hvt3 : v.tile_index = nbrIdx (r, c) d := by rw [hvt, hu]
        have hpv2 : g4.grid (nbrIdx (r, c) d).1 (nbrIdx (r, c) d).2 ≠
            .EMPTY := by
          rw [← hvt3]
          exact hpv
        have hmask : g4.maskB r c d = true :=
          (maskB_iff_placed g4 hg4.oob r c d).mpr hpv2
        refine ⟨(d, (nbrIdx (r, c) d,
            g4.grid (nbrIdx (r, c) d).1 (nbrIdx (r, c) d).2)),
          (mem_get_neighbors g4 r c _).mpr ⟨hmask, rfl⟩, Or.inl ?_⟩
        have hueq : u = (⟨(r, c), d, .EXIT⟩ : RoadSegmentNode) :=
          node_ext u _ _ _ hu hud hunt
        have hveq : v = (⟨nbrIdx (r, c) d, d.opposite, .ENTER⟩ :
            RoadSegmentNode) := node_ext v _ _ _ hvt3 hvd hvnt
        rw [hueq, hveq] <;> rfl
      · by_cases hv : v.tile_index = (r, c)
        · right
          have hut3 : u.tile_index = nbrIdx (r, c) d.opposite := by
            have h1 : nbrIdx u.tile_index d = (r, c) := by rw [← hvt, hv]
            exact (nbrIdx_eq_comm u.tile_index (r, c) d h1).symm
          have hpu2 : g4.grid (nbrIdx (r, c) d.opposite).1
              (nbrIdx (r, c) d.opposite).2 ≠ .EMPTY := by
            rw [← hut3]
            exact hpu
          have hmask : g4.maskB r c d.opposite = true :=
            (maskB_iff_placed g4 hg4.oob r c d.opposite).mpr hpu2
          refine ⟨(d.opposite, (nbrIdx (r, c) d.opposite,
              g4.grid (nbrIdx (r, c) d.opposite).1
                (nbrIdx (r, c) d.opposite).2)),
            (mem_get_neighbors g4 r c _).mpr ⟨hmask, rfl⟩, Or.inr ?_⟩
          have hueq : u = (⟨nbrIdx (r, c) d.opposite, d.opposite.opposite,
              .EXIT⟩ : RoadSegmentNode) := by
            refine node_ext u _ _ _ hut3 ?_ hunt
            rw [opposite_opposite]
            exact hud
          have hveq : v = (⟨(r, c), d.opposite, .ENTER⟩ :
              RoadSegmentNode) := node_ext v _ _ _ hv hvd hvnt
          rw [hueq, hveq] <;> rfl
        · left
          rw [hmemOut (u, v)]
          left
          have hpuO : gOld.grid u.tile_index.1 u.tile_index.2 ≠ .EMPTY := by
            rcases (hplaced4 u.tile_index).mp hpu with h | h
            · exact h
            · exact absurd h hu
          have hpvO : gOld.grid v.tile_index.1 v.tile_index.2 ≠ .EMPTY := by
            rcases (hplaced4 v.tile_index).mp hpv with h | h
            · exact h
            · exact absurd h hv
          constructor
          · refine ((hgraph.cross u v).mpr
              ⟨d, hvt, hud, hunt, hvd, hvnt, hpuO, hpvO, ?_, ?_⟩).1
            · rw [placed_segments_iff gOld hgOld u.tile_index hpuO d, ← hvt]
              exact hpvO
            · rw [placed_segments_iff gOld hgOld v.tile_index hpvO d.opposite,
                nbrIdx_eq_comm u.tile_index v.tile_index d hvt.symm]
              exact hpuO
          · intro e he i0 hi0 hte hut3
            have h1 := uturnEdge_tile _ _ hut3
            exact hneT (h1.1.trans h1.2.symm)
  · intro u v
    simp only [hGproj]
    constructor
    · rintro ⟨hmem, hsame⟩
      rcases (hmemFin (u, v)).mp hmem with hout | ⟨e, he, hadd⟩
      · rcases (hmemOut (u, v)).mp hout with ⟨hold, hutall⟩ | hins |
          ⟨e, he, i0, hi0, hintra⟩
        · obtain ⟨hvt, hpO, hent, hext, hcases⟩ :=
            (hgraph.intra u v).mp ⟨hold, hsame⟩
          have hpu4 : g4.grid u.tile_index.1 u.tile_index.2 ≠ .EMPTY :=
            (hplaced4 u.tile_index).mpr (Or.inl hpO)
          by_cases he2 : ∃ e ∈ g4.get_neighbors r c, u.tile_index = e.2.1
          · obtain ⟨e, he, hte⟩ := he2
            obtain ⟨i0, hi0⟩ := Option.isSome_iff_exists.mp (hlookup e he)
            obtain ⟨hnd0, hdirs0⟩ := hgraph.inter_dirs e.2.1 i0 hi0
            have hut := hutall e he i0 hi0 hte
            have htileI : ((i0.add_segment_nodes e.1.opposite).r,
                (i0.add_segment_nodes e.1.opposite).c) = e.2.1 := by
              rw [add_segment_nodes_r, add_segment_nodes_c,
                (hgraph.inter_rc e.2.1 i0 hi0).1,
                (hgraph.inter_rc e.2.1 i0 hi0).2]
            rcases hcases with ⟨hlen1, hmemd, hdeq⟩ | ⟨hlen2, hd1, hd2, hdne⟩
            · exfalso
              apply hut
              have hm2 : u.dir ∈
                  (gOld.grid e.2.1.1 e.2.1.2).segment_directions := by
                rw [← hte]
                exact hmemd
              refine ⟨u.dir, ?_, ?_⟩
              · rw [mem_add_segment_nodes]
                exact Or.inr ((hdirs0 u.dir).mpr hm2)
              · refine Prod.ext ?_ ?_
                · exact node_ext u _ _ _ (by rw [htileI]; exact hte) rfl hent
                · exact node_ext v _ _ _ (by rw [htileI]; exact hvt.trans hte)
                    hdeq hext
            · have hd1' : u.dir ∈
                  (gOld.grid e.2.1.1 e.2.1.2).segment_directions := by
                rw [← hte]
                exact hd1
              have hd2' : v.dir ∈
                  (gOld.grid e.2.1.1 e.2.1.2).segment_directions := by
                rw [← hte]
                exact hd2
              have hm1 : u.dir ∈
                  (g4.grid u.tile_index.1 u.tile_index.2).segment_directions := by
                rw [hte]
                exact (hsegsEntry e he u.dir).mpr (Or.inl hd1')
              have hm2 : v.dir ∈
                  (g4.grid u.tile_index.1 u.tile_index.2).segment_directions := by
                rw [hte]
                exact (hsegsEntry e he v.dir).mpr (Or.inl hd2')
              exact ⟨hvt, hpu4, hent, hext, Or.inr
                ⟨twoLe_length_of_mem hm1 hm2 (fun hx => hdne hx.symm), hm1,
                  hm2, hdne⟩⟩
          · push_neg at he2
            have hsegsEq := hsegsOther u.tile_index hpO he2
            have hlenEq :
                (g4.grid u.tile_index.1 u.tile_index.2).segment_directions.length =
                (gOld.grid u.tile_index.1 u.tile_index.2).segment_directions.length :=
              length_eq_of_nodup_mem_iff (segment_directions_nodup _)
                (segment_directions_nodup _) hsegsEq
            refine ⟨hvt, hpu4, hent, hext, ?_⟩
            rcases hcases with ⟨hlen1, hmemd, hdeq⟩ | ⟨hlen2, hd1, hd2, hdne⟩
            · exact Or.inl ⟨by rw [hlenEq]; exact hlen1,
                (hsegsEq u.dir).mpr hmemd, hdeq⟩
            · exact Or.inr ⟨by rw [hlenEq]; exact hlen2,
                (hsegsEq u.dir).mpr hd1, (hsegsEq v.dir).mpr hd2, hdne⟩
        · rcases hins with ⟨d0, hd0, hx⟩ | ⟨hlen, d1, hd1, d2, hd2, hne12, hx⟩
          · injection hx with hu hv
            have hd0x : (g4.grid r c).segment_directions = [d0] := hd0
            have hut2 : u.tile_index = (r, c) := by rw [hu] <;> rfl
            have hud2 : u.dir = d0 := by rw [hu] <;> rfl
            have hvd2 : v.dir = d0 := by rw [hv] <;> rfl
            refine ⟨by rw [hv, hu] <;> rfl, by rw [hut2]; exact hcplaced,
              by rw [hu] <;> rfl, by rw [hv] <;> rfl, Or.inl ⟨?_, ?_, ?_⟩⟩
            · rw [hut2]
              show (g4.grid r c).segment_directions.length = 1
              rw [hd0x]
              rfl
            · rw [hut2, hud2]
              show d0 ∈ (g4.grid r c).segment_directions
              rw [hd0x]
              simp
            · rw [hvd2, hud2]
          · injection hx with hu hv
            have hut2 : u.tile_index = (r, c) := by rw [hu] <;> rfl
            have hud2 : u.dir = d1 := by rw [hu] <;> rfl
            have hvd2 : v.dir = d2 := by rw [hv] <;> rfl
            refine ⟨by rw [hv, hu] <;> rfl, by rw [hut2]; exact hcplaced,
              by rw [hu] <;> rfl, by rw [hv] <;> rfl, Or.inr ⟨?_, ?_, ?_, ?_⟩⟩
            · rw [hut2]
              show 2 ≤ (g4.grid r c).segment_directions.length
              exact twoLe_length_of_mem hd1 hd2 (fun hy => hne12 hy.symm)
            · rw [hut2, hud2]
              exact hd1
            · rw [hut2, hvd2]
              exact hd2
            · rw [hvd2, hud2]
              exact hne12
        · obtain ⟨hnd0, hdirs0⟩ := hgraph.inter_dirs e.2.1 i0 hi0
          have htileI : ((i0.add_segment_nodes e.1.opposite).r,
              (i0.add_segment_nodes e.1.opposite).c) = e.2.1 := by
            rw [add_segment_nodes_r, add_segment_nodes_c,
              (hgraph.inter_rc e.2.1 i0 hi0).1,
              (hgraph.inter_rc e.2.1 i0 hi0).2]
          have hidirs : ∀ d, d ∈ (i0.add_segment_nodes e.1.opposite).dirs ↔
              d ∈ (g4.grid e.2.1.1 e.2.1.2).segment_directions := by
            intro d
            rw [mem_add_segment_nodes, hdirs0 d, hsegsEntry e he d]
            tauto
          rcases hintra with ⟨d0, hd0, hx⟩ | ⟨hlen, d1, hd1, d2, hd2, hne12, hx⟩
          · injection hx with hu hv
            have hut2 : u.tile_index = e.2.1 := by
              rw [hu]
              show ((i0.add_segment_nodes e.1.opposite).r,
                (i0.add_segment_nodes e.1.opposite).c) = e.2.1
              exact htileI
            have hud2 : u.dir = d0 := by rw [hu] <;> rfl
            have hvd2 : v.dir = d0 := by rw [hv] <;> rfl
            have hsingle : (g4.grid e.2.1.1 e.2.1.2).segment_directions =
                [d0] := by
              refine eq_singleton_of_nodup_mem (segment_directions_nodup _) ?_
              intro d
              rw [← hidirs d, hd0]
              simp
            refine ⟨by rw [hv, hu] <;> rfl, by rw [hut2]; exact (hentry e he).2.1,
              by rw [hu] <;> rfl, by rw [hv] <;> rfl, Or.inl ⟨?_, ?_, ?_⟩⟩
            · rw [hut2, hsingle]
              rfl
            · rw [hut2, hud2, hsingle]
              simp
            · rw [hvd2, hud2]
          · injection hx with hu hv
            have hut2 : u.tile_index = e.2.1 := by
              rw [hu]
              show ((i0.add_segment_nodes e.1.opposite).r,
                (i0.add_segment_nodes e.1.opposite).c) = e.2.1
              exact htileI
            have hud2 : u.dir = d1 := by rw [hu] <;> rfl
            have hvd2 : v.dir = d2 := by rw [hv] <;> rfl
            have hm1 : d1 ∈ (g4.grid e.2.1.1 e.2.1.2).segment_directions :=
              (hidirs d1).mp hd1
            have hm2 : d2 ∈ (g4.grid e.2.1.1 e.2.1.2).segment_directions :=
              (hidirs d2).mp hd2
            refine ⟨by rw [hv, hu] <;> rfl, by rw [hut2]; exact (hentry e he).2.1,
              by rw [hu] <;> rfl, by rw [hv] <;> rfl, Or.inr ⟨?_, ?_, ?_, ?_⟩⟩
            · rw [hut2]
              exact twoLe_length_of_mem hm1 hm2 (fun hy => hne12 hy.symm)
            · rw [hut2, hud2]
              exact hm1
            · rw [hut2, hvd2]
              exact hm2
            · rw [hvd2, hud2]
              exact hne12
      · exfalso
        rcases hadd with hx | hx
        · injection hx with hu hv
          have h1 : u.tile_index = (r, c) := by rw [hu] <;> rfl
          have h2 : v.tile_index = e.2.1 := by rw [hv] <;> rfl
          exact (hentry e he).2.2.1 (h2.symm.trans (hsame.symm.trans h1))
        · injection hx with hu hv
          have h1 : u.tile_index = e.2.1 := by rw [hu] <;> rfl
          have h2 : v.tile_index = (r, c) := by rw [hv] <;> rfl
          exact (hentry e he).2.2.1 (h1.symm.trans (hsame.trans h2))
    · rintro ⟨hvt, hp4, hent, hext, hcases⟩
      refine ⟨?_, hvt.symm⟩
      rw [hmemFin (u, v)]
      by_cases hu : u.tile_index = (r, c)
      · left
        rw [hmemOut (u, v)]
        right
        left
        have hsegs_u : (g4.grid u.tile_index.1 u.tile_index.2).segment_directions
            = (g4.grid r c).segment_directions := by rw [hu] <;> rfl
        rcases hcases with ⟨hlen1, hmemd, hdeq⟩ | ⟨hlen2, hd1, hd2, hdne⟩
        · left
          refine ⟨u.dir, ?_, ?_⟩
          · show (g4.grid r c).segment_directions = [u.dir]
            refine eq_singleton_of_length_one ?_ ?_
            · rw [← hsegs_u]
              exact hlen1
            · rw [← hsegs_u]
              exact hmemd
          · exact Prod.ext (node_ext u _ _ _ hu rfl hent)
              (node_ext v _ _ _ (hvt.trans hu) hdeq hext)
        · right
          refine ⟨?_, u.dir, ?_, v.dir, ?_, hdne, ?_⟩
          · show (g4.grid r c).segment_directions.length ≠ 1
            rw [← hsegs_u]
            omega
          · show u.dir ∈ (g4.grid r c).segment_directions
            rw [← hsegs_u]
            exact hd1
          · show v.dir ∈ (g4.grid r c).segment_directions
            rw [← hsegs_u]
            exact hd2
          · exact Prod.ext (node_ext u _ _ _ hu rfl hent)
              (node_ext v _ _ _ (hvt.trans hu) rfl hext)
      · by_cases he2 : ∃ e ∈ g4.get_neighbors r c, u.tile_index = e.2.1
        · obtain ⟨e, he, hte⟩ := he2
          obtain ⟨i0, hi0⟩ := Option.isSome_iff_exists.mp (hlookup e he)
          obtain ⟨hnd0, hdirs0⟩ := hgraph.inter_dirs e.2.1 i0 hi0
          have htileI : ((i0.add_segment_nodes e.1.opposite).r,
              (i0.add_segment_nodes e.1.opposite).c) = e.2.1 := by
            rw [add_segment_nodes_r, add_segment_nodes_c,
              (hgraph.inter_rc e.2.1 i0 hi0).1,
              (hgraph.inter_rc e.2.1 i0 hi0).2]
          have hidirs : ∀ d, d ∈ (i0.add_segment_nodes e.1.opposite).dirs ↔
              d ∈ (g4.grid e.2.1.1 e.2.1.2).segment_directions := by
            intro d
            rw [mem_add_segment_nodes, hdirs0 d, hsegsEntry e he d]
            tauto
          have hnodI : (i0.add_segment_nodes e.1.opposite).dirs.Nodup :=
            add_segment_nodes_nodup i0 _ hnd0
          left
          rw [hmemOut (u, v)]
          right
          right
          refine ⟨e, he, i0, hi0, ?_⟩
          have hsegs_u :
              (g4.grid u.tile_index.1 u.tile_index.2).segment_directions =
              (g4.grid e.2.1.1 e.2.1.2).segment_directions := by rw [hte]
          rcases hcases with ⟨hlen1, hmemd, hdeq⟩ | ⟨hlen2, hd1, hd2, hdne⟩
          · left
            have hsingle4 : (g4.grid e.2.1.1 e.2.1.2).segment_directions =
                [u.dir] := by
              refine eq_singleton_of_length_one ?_ ?_
              · rw [← hsegs_u]
                exact hlen1
              · rw [← hsegs_u]
                exact hmemd
            refine ⟨u.dir, ?_, ?_⟩
            · refine eq_singleton_of_nodup_mem hnodI ?_
              intro d
              rw [hidirs d, hsingle4]
              simp
            · refine Prod.ext ?_ ?_
              · exact node_ext u _ _ _ (by rw [htileI]; exact hte) rfl hent
              · exact node_ext v _ _ _ (by rw [htileI]; exact hvt.trans hte)
                  hdeq hext
          · right
            have hm1 : u.dir ∈ (i0.add_segment_nodes e.1.opposite).dirs :=
              (hidirs u.dir).mpr (by rw [← hsegs_u]; exact hd1)
            have hm2 : v.dir ∈ (i0.add_segment_nodes e.1.opposite).dirs :=
              (hidirs v.dir).mpr (by rw [← hsegs_u]; exact hd2)
            refine ⟨?_, u.dir, hm1, v.dir, hm2, hdne, ?_⟩
            · have h2le := twoLe_length_of_mem hm1 hm2
                (fun hy => hdne hy.symm)
              omega
            · refine Prod.ext ?_ ?_
              · exact node_ext u _ _ _ (by rw [htileI]; exact hte) rfl hent
              · exact node_ext v _ _ _ (by rw [htileI]; exact hvt.trans hte)
                  rfl hext
        · push_neg at he2
          left
          rw [hmemOut (u, v)]
          left
          have hpuO : gOld.grid u.tile_index.1 u.tile_index.2 ≠ .EMPTY := by
            rcases (hplaced4 u.tile_index).mp hp4 with h | h
            · exact h
            · exact absurd h hu
          have hsegsEq := hsegsOther u.tile_index hpuO he2
          have hlenEq :
              (g4.grid u.tile_index.1 u.tile_index.2).segment_directions.length =
              (gOld.grid u.tile_index.1 u.tile_index.2).segment_directions.length :=
            length_eq_of_nodup_mem_iff (segment_directions_nodup _)
              (segment_directions_nodup _) hsegsEq
          constructor
          · refine ((hgraph.intra u v).mpr ⟨hvt, hpuO, hent, hext, ?_⟩).1
            rcases hcases with ⟨hlen1, hmemd, hdeq⟩ | ⟨hlen2, hd1, hd2, hdne⟩
            · exact Or.inl ⟨by rw [← hlenEq]; exact hlen1,
                (hsegsEq u.dir).mp hmemd, hdeq⟩
            · exact Or.inr ⟨by rw [← hlenEq]; exact hlen2,
                (hsegsEq u.dir).mp hd1, (hsegsEq v.dir).mp hd2, hdne⟩
          · intro e he i0 hi0 hte
            exact absurd hte (he2 e he)

/-- A successful in-bounds `add_tile` on an invariant grid yields an
invariant grid; EMPTY-ness changes exactly at the placed cell. -/
theorem add_tile_preserves_gridinv (g : TileGrid) (r c : Int) (b : Bool)
    (hg : GridInv g) (hr0 : 0 ≤ r) (hrh : r < (g.h : Int)) (hc0 : 0 ≤ c)
    (hcw : c < (g.w : Int)) (hemp : g.grid r c = .EMPTY)
    (hres : b = true → g.get_neighbors r c ≠ []) :
    ∃ g', g.add_tile r c b = some (true, g') ∧ g'.w = g.w ∧ g'.h = g.h ∧
      GridInv g' ∧
      (∀ r' c', (g'.grid r' c' = .EMPTY) ↔
        (g.grid r' c' = .EMPTY ∧ ¬(r' = r ∧ c' = c))) := by
  obtain ⟨g', hadd, hW, hH, hevC, hEmp, hframe, hnbr⟩ :=
    add_tile_spec g r c b hemp hres
  refine ⟨g', hadd, hW, hH, ⟨?_, ?_⟩, hEmp⟩
  · intro r' c' hout
    rw [hW, hH] at hout
    rw [hEmp]
    refine ⟨hg.oob r' c' hout, ?_⟩
    rintro ⟨rfl, rfl⟩
    exact hout ⟨hr0, hrh, hc0, hcw⟩
  · intro r' c' hne
    by_cases hcen : r' = r ∧ c' = c
    · rw [hcen.1, hcen.2] at hne ⊢
      rw [evaluate_false_eq_true_of_ne g' r c hne]
      exact hevC
    by_cases hup : r' = r - 1 ∧ c' = c
    · rw [hup.1, hup.2] at hne ⊢
      have hgne : g.grid (r - 1) c ≠ .EMPTY := fun hx =>
        hne ((hEmp (r - 1) c).mpr ⟨hx, by omega⟩)
      have hguard : writeGuard g r c .UP := by
        show r - 1 ≥ 0
        by_contra hlt
        exact hgne (hg.oob (r - 1) c (by omega))
      exact hnbr .UP hguard hgne
    by_cases hright : r' = r ∧ c' = c + 1
    · rw [hright.1, hright.2] at hne ⊢
      have hgne : g.grid r (c + 1) ≠ .EMPTY := fun hx =>
        hne ((hEmp r (c + 1)).mpr ⟨hx, by omega⟩)
      have hguard : writeGuard g r c .RIGHT := by
        show c + 1 < (g.w : Int)
        by_contra hlt
        exact hgne (hg.oob r (c + 1) (by omega))
      exact hnbr .RIGHT hguard hgne
    by_cases hdown : r' = r + 1 ∧ c' = c
    · rw [hdown.1, hdown.2] at hne ⊢
      have hgne : g.grid (r + 1) c ≠ .EMPTY := fun hx =>
        hne ((hEmp (r + 1) c).mpr ⟨hx, by omega⟩)
      have hguard : writeGuard g r c .DOWN := by
        show r + 1 < (g.h : Int)
        by_contra hlt
        exact hgne (hg.oob (r + 1) c (by omega))
      exact hnbr .DOWN hguard hgne
    by_cases hleft : r' = r ∧ c' = c - 1
    · rw [hleft.1, hleft.2] at hne ⊢
      have hgne : g.grid r (c - 1) ≠ .EMPTY := fun hx =>
        hne ((hEmp r (c - 1)).mpr ⟨hx, by omega⟩)
      have hguard : writeGuard g r c .LEFT := by
        show c - 1 ≥ 0
        by_contra hlt
        exact hgne (hg.oob r (c - 1) (by omega))
      exact hnbr .LEFT hguard hgne
    · have hval : g'.grid r' c' = g.grid r' c' :=
        hframe r' c' hcen hup hright hdown hleft
      have hgne : g.grid r' c' ≠ .EMPTY := by
        rw [← hval]
        exact hne
      have hcongr := evaluate_congr g' g r' c' false hW hH
        (fun _ => by
          rw [hEmp r' c']
          simp [hcen])
        (by
          intro d'
          by_cases hq : nbrIdx (r', c') d' = (r, c)
          · exfalso
            have h2 : nbrIdx (r, c) d'.opposite = (r', c') :=
              nbrIdx_eq_comm (r', c') (r, c) d' hq
            cases d'
            · have h3 : ((r + 1 : Int), c) = (r', c') := h2
              injection h3 with ha hb
              exact hdown ⟨ha.symm, hb.symm⟩
            · have h3 : ((r : Int), c - 1) = (r', c') := h2
              injection h3 with ha hb
              exact hleft ⟨ha.symm, hb.symm⟩
            · have h3 : ((r - 1 : Int), c) = (r', c') := h2
              injection h3 with ha hb
              exact hup ⟨ha.symm, hb.symm⟩
            · have h3 : ((r : Int), c + 1) = (r', c') := h2
              injection h3 with ha hb
              exact hright ⟨ha.symm, hb.symm⟩
          · rw [hEmp]
            have hq2 : ¬((nbrIdx (r', c') d').1 = r ∧
                (nbrIdx (r', c') d').2 = c) := by
              intro hy
              exact hq (Prod.ext hy.1 hy.2)
            simp [hq2])
      rw [hcongr, hg.shape r' c' hgne, hval]

/-- Under the two invariants, every in-bounds `add_road` call succeeds
(the `Option` never falls through) and re-establishes both invariants
on the updated network. -/
theorem add_road_preserves (net : RoadNetwork) (r c : Int) (b : Bool)
    (hgrid : GridInv net.grid) (hgraph : GraphInv net.grid net.graph)
    (hr0 : 0 ≤ r) (hrh : r < (net.grid.h : Int)) (hc0 : 0 ≤ c)
    (hcw : c < (net.grid.w : Int)) :
    ∃ res net', net.add_road r c b = some (res, net') ∧
      GridInv net'.grid ∧ GraphInv net'.grid net'.graph := by
  by_cases h1 : net.grid.grid r c ≠ .EMPTY
  · refine ⟨false, { net with grid := net.grid }, ?_, hgrid, hgraph⟩
    unfold RoadNetwork.add_road
    have ht : net.grid.add_tile r c b = some (false, net.grid) := by
      unfold TileGrid.add_tile
      rw [if_pos h1]
    rw [ht, Option.some_bind]
    rfl
  · push_neg at h1
    by_cases h2 : b = true ∧ net.grid.get_neighbors r c = []
    · refine ⟨false, { net with grid := net.grid }, ?_, hgrid, hgraph⟩
      unfold RoadNetwork.add_road
      have ht : net.grid.add_tile r c b = some (false, net.grid) := by
        unfold TileGrid.add_tile
        rw [if_neg (by simp [h1]), if_pos h2]
      rw [ht, Option.some_bind]
      rfl
    · have hres : b = true → net.grid.get_neighbors r c ≠ [] :=
        fun hb hn => h2 ⟨hb, hn⟩
      obtain ⟨g', hadd, hW, hH, hginv2, hEmp⟩ :=
        add_tile_preserves_gridinv net.grid r c b hgrid hr0 hrh hc0 hcw h1 hres
      obtain ⟨tg', hreg, hginv3⟩ :=
        register_preserves net.grid g' net.graph r c hgraph hgrid hginv2 h1 hEmp
      refine ⟨true, { net with grid := g', graph := tg' }, ?_, hginv2, hginv3⟩
      unfold RoadNetwork.add_road
      rw [hadd, Option.some_bind]
      simp [hreg]

/-- The networks reachable from an empty `RoadNetwork` by a sequence of
`add_road` calls at valid grid indices (as issued by the game loop). -/
inductive Reachable : RoadNetwork → Prop where
  | init : ∀ w h : Nat, Reachable (RoadNetwork.init w h)
  | step : ∀ (net : RoadNetwork) (r c : Int) (b res : Bool)
      (net' : RoadNetwork), Reachable net →
      0 ≤ r → r < (net.grid.h : Int) → 0 ≤ c → c < (net.grid.w : Int) →
      net.add_road r c b = some (res, net') → Reachable net'

/-- Both invariants hold in every reachable network state. -/
theorem reachable_inv (net : RoadNetwork) (h : Reachable net) :
    GridInv net.grid ∧ GraphInv net.grid net.graph := by
  induction h with
  | init w h =>
    constructor
    · constructor
      · intro r c hx
        rfl
      · intro r c hne
        exact absurd rfl hne
    · constructor
      · intro p
        exact iff_of_false (by simp [RoadNetwork.init, TravelGraph.init]) 
          (fun hx => hx rfl)
      · intro p i hi
        exact absurd hi (by simp [RoadNetwork.init, TravelGraph.init])
      · intro p i hi
        exact absurd hi (by simp [RoadNetwork.init, TravelGraph.init])
      · intro u v
        refine iff_of_false (fun hx => ?_) (fun hx => ?_)
        · exact absurd hx.1 (by simp [RoadNetwork.init, TravelGraph.init])
        · obtain ⟨d, -, -, -, -, -, hpu, -⟩ := hx
          exact hpu rfl
      · intro u v
        refine iff_of_false (fun hx => ?_) (fun hx => ?_)
        · exact absurd hx.1 (by simp [RoadNetwork.init, TravelGraph.init])
        · exact hx.2.1 rfl
  | step net r c b res net' hre hr0 hrh hc0 hcw hadd ih =>
    obtain ⟨hg, htg⟩ := ih
    obtain ⟨res2, net2, hadd2, h1', h2'⟩ :=
      add_road_preserves net r c b hg htg hr0 hrh hc0 hcw
    rw [hadd] at hadd2
    injection hadd2 with h3
    injection h3 with h4 h5
    rw [← h5] at h1' h2'
    exact ⟨h1', h2'⟩

/-- C1: in every network reachable by successful tile placements, for
every pair of placed adjacent tiles exposing the segments facing each
other, both crossing edges EXIT(d) → ENTER(opposite d) are present; and
every edge between two distinct tile coordinates is such a crossing edge
between placed, adjacent, mutually facing tiles. -/
theorem claim_C1 (net : RoadNetwork) (h : Reachable net) :
    (∀ (p : Int × Int) (d : Direction),
      net.grid.grid p.1 p.2 ≠ .EMPTY →
      net.grid.grid (nbrIdx p d).1 (nbrIdx p d).2 ≠ .EMPTY →
      d ∈ (net.grid.grid p.1 p.2).segment_directions →
      d.opposite ∈ (net.grid.grid (nbrIdx p d).1
        (nbrIdx p d).2).segment_directions →
      ((⟨p, d, .EXIT⟩ : RoadSegmentNode),
        (⟨nbrIdx p d, d.opposite, .ENTER⟩ : RoadSegmentNode)) ∈
          net.graph.G.edges ∧
      ((⟨nbrIdx p d, d.opposite, .EXIT⟩ : RoadSegmentNode),
        (⟨p, d, .ENTER⟩ : RoadSegmentNode)) ∈ net.graph.G.edges) ∧
    (∀ u v : RoadSegmentNode, (u, v) ∈ net.graph.G.edges →
      u.tile_index ≠ v.tile_index → CrossSpec net.grid u v) := by
  obtain ⟨-, htg⟩ := reachable_inv net h
  constructor
  · intro p d hp hq hs1 hs2
    constructor
    · exact ((htg.cross ⟨p, d, .EXIT⟩ ⟨nbrIdx p d, d.opposite, .ENTER⟩).mpr
        ⟨d, rfl, rfl, rfl, rfl, rfl, hp, hq, hs1, hs2⟩).1
    · exact ((htg.cross ⟨nbrIdx p d, d.opposite, .EXIT⟩ ⟨p, d, .ENTER⟩).mpr
        ⟨d.opposite, (nbrIdx_opposite p d).symm, rfl, rfl,
          (opposite_opposite d).symm ▸ rfl, rfl, hq, hp, hs2,
          by rw [opposite_opposite]; exact hs1⟩).1
  · intro u v hmem hne
    exact (htg.cross u v).mp ⟨hmem, hne⟩

/-- C2: in every reachable network, an intersection on a tile with
exactly one active direction carries the U-turn ENTER(d) → EXIT(d); one
with two or more active directions carries no U-turn at all but every
ENTER(d1) → EXIT(d2) with d1 ≠ d2 over its active directions; and every
same-tile edge is of one of these two forms. -/
theorem claim_C2 (net : RoadNetwork) (h : Reachable net) (p : Int × Int)
    (hp : net.grid.grid p.1 p.2 ≠ .EMPTY) :
    ((net.grid.grid p.1 p.2).segment_directions.length = 1 →
      ∀ d, d ∈ (net.grid.grid p.1 p.2).segment_directions →
        ((⟨p, d, .ENTER⟩ : RoadSegmentNode),
          (⟨p, d, .EXIT⟩ : RoadSegmentNode)) ∈ net.graph.G.edges) ∧
    (2 ≤ (net.grid.grid p.1 p.2).segment_directions.length →
      (∀ d : Direction,
        ((⟨p, d, .ENTER⟩ : RoadSegmentNode),
          (⟨p, d, .EXIT⟩ : RoadSegmentNode)) ∉ net.graph.G.edges) ∧
      (∀ d1 d2, d1 ∈ (net.grid.grid p.1 p.2).segment_directions →
        d2 ∈ (net.grid.grid p.1 p.2).segment_directions → d1 ≠ d2 →
        ((⟨p, d1, .ENTER⟩ : RoadSegmentNode),
          (⟨p, d2, .EXIT⟩ : RoadSegmentNode)) ∈ net.graph.G.edges)) ∧
    (∀ u v : RoadSegmentNode, (u, v) ∈ net.graph.G.edges →
      u.tile_index = p → v.tile_index = p → IntraSpec net.grid u v) := by
  obtain ⟨-, htg⟩ := reachable_inv net h
  refine ⟨?_, ?_, ?_⟩
  · intro hlen d hd
    exact ((htg.intra ⟨p, d, .ENTER⟩ ⟨p, d, .EXIT⟩).mpr
      ⟨rfl, hp, rfl, rfl, Or.inl ⟨hlen, hd, rfl⟩⟩).1
  · intro hlen
    constructor
    · intro d hmem
      have hI := (htg.intra ⟨p, d, .ENTER⟩ ⟨p, d, .EXIT⟩).mp ⟨hmem, rfl⟩
      rcases hI.2.2.2.2 with ⟨h1, -, -⟩ | ⟨-, -, -, hne⟩
      · have h1' : (net.grid.grid p.1 p.2).segment_directions.length = 1 := h1
        omega
      · exact hne rfl
    · intro d1 d2 hd1 hd2 hne
      exact ((htg.intra ⟨p, d1, .ENTER⟩ ⟨p, d2, .EXIT⟩).mpr
        ⟨rfl, hp, rfl, rfl, Or.inr ⟨hlen, hd1, hd2,
          fun hx => hne hx.symm⟩⟩).1
  · intro u v hmem ht1 ht2
    exact (htg.intra u v).mp ⟨hmem, ht1.trans ht2.symm⟩

/-- C9: in every reachable network, a coordinate holds a registered
intersection exactly when its grid cell is non-EMPTY, every registered
intersection's direction set matches its tile's active directions, and
every in-bounds `add_road` call returns a result (in particular the
neighbor-intersection lookup inside registration never falls through). -/
theorem claim_C9 (net : RoadNetwork) (h : Reachable net) :
    (∀ p : Int × Int, (net.graph.intersections p).isSome = true ↔
      net.grid.grid p.1 p.2 ≠ .EMPTY) ∧
    (∀ (p : Int × Int) (i : TravelIntersection),
      net.graph.intersections p = some i →
      ∀ d, (d ∈ i.dirs ↔ d ∈ (net.grid.grid p.1 p.2).segment_directions)) ∧
    (∀ (r c : Int) (b : Bool), 0 ≤ r → r < (net.grid.h : Int) → 0 ≤ c →
      c < (net.grid.w : Int) →
      ∃ res net', net.add_road r c b = some (res, net')) := by
  obtain ⟨hg, htg⟩ := reachable_inv net h
  refine ⟨htg.inter_iff, ?_, ?_⟩
  · intro p i hi d
    exact (htg.inter_dirs p i hi).2 d
  · intro r c b hr0 hrh hc0 hcw
    obtain ⟨res, net', hadd, -, -⟩ :=
      add_road_preserves net r c b hg htg hr0 hrh hc0 hcw
    exact ⟨res, net', hadd⟩

/-- A 1x2 network after placing a road tile at (0, 0). -/
def netB1 : RoadNetwork :=
  ((RoadNetwork.init 2 1).add_road 0 0 false).elim (RoadNetwork.init 2 1)
    (fun x => x.2)

/-- The same network after additionally placing a road tile at (0, 1):
the two tiles become RIGHT and LEFT dead-ends facing each other. -/
def netC : RoadNetwork :=
  (netB1.add_road 0 1 false).elim netB1 (fun x => x.2)

theorem netB1_reach : Reachable netB1 :=
  Reachable.step (RoadNetwork.init 2 1) 0 0 false true netB1
    (Reachable.init 2 1) (by decide) (by decide) (by decide) (by decide) rfl

theorem netC_reach : Reachable netC :=
  Reachable.step netB1 0 1 false true netC netB1_reach (by decide)
    (by decide) (by decide) (by decide) rfl

theorem claim_C1_witness :
    ((⟨((0 : Int), (0 : Int)), .RIGHT, .EXIT⟩ : RoadSegmentNode),
      (⟨nbrIdx ((0 : Int), (0 : Int)) .RIGHT, Direction.RIGHT.opposite,
        .ENTER⟩ : RoadSegmentNode)) ∈ netC.graph.G.edges ∧
    ((⟨nbrIdx ((0 : Int), (0 : Int)) .RIGHT, Direction.RIGHT.opposite,
        .EXIT⟩ : RoadSegmentNode),
      (⟨((0 : Int), (0 : Int)), .RIGHT, .ENTER⟩ : RoadSegmentNode)) ∈
        netC.graph.G.edges :=
  (claim_C1 netC netC_reach).1 ((0 : Int), (0 : Int)) .RIGHT (by decide)
    (by decide) (by decide) (by decide)

theorem claim_C2_witness :
    ((⟨((0 : Int), (1 : Int)), .LEFT, .ENTER⟩ : RoadSegmentNode),
      (⟨((0 : Int), (1 : Int)), .LEFT, .EXIT⟩ : RoadSegmentNode)) ∈
      netC.graph.G.edges :=
  (claim_C2 netC netC_reach ((0 : Int), (1 : Int)) (by decide)).1 (by decide)
    .LEFT (by decide)

theorem claim_C9_witness :
    ((netC.graph.intersections ((0 : Int), (0 : Int))).isSome = true ↔
      netC.grid.grid 0 0 ≠ .EMPTY) ∧
    (∃ res net', netC.add_road 0 0 true = some (res, net')) :=
  ⟨(claim_C9 netC netC_reach).1 ((0 : Int), (0 : Int)),
    (claim_C9 netC netC_reach).2.2 0 0 true (by decide) (by decide)
      (by decide) (by decide)⟩
